import Mathlib

/-!
Verification of the rssrssrssrss feed-merging pipeline.

This file is a shallow embedding, in Lean 4, of the core of
`src/lib/rss.ts` (mergeFeeds, generateRSS, generateJSONFeed, safeString,
escapeXml, wrapCDATA, parseFeedFromUrl, parseFeedFromDiscoveredUrl,
discoverFeedFromHtml) together with `encodeContent` from the route module.

Conventions of the embedding:
* JavaScript runtime values that may be a string or an attribute-bearing
  object (guid, category) are modelled by the inductive type `JSVal`.
* JavaScript truthiness on optional strings is modelled by `jsTruthyS`,
  on `JSVal` by `jsTruthy`.
* Impure reads of the current time (`new Date()`, `Date.now()`) are
  modelled by an explicit `Clock` argument carrying the three renderings
  the code uses.
* The JavaScript `Date` parser is modelled by an explicit parameter
  `pd : String → Int` giving the epoch-millisecond value of a date
  string; `new Date(0)` is epoch 0.
* Network effects are modelled by a `Net` oracle giving the resolved
  outcome of each network-touching helper; a thrown exception is an
  `Except.error` carrying the message string.
-/

/-- JavaScript runtime value as it can reach the serializer helpers:
`null`, `undefined`, a string, a number (integers suffice for this
code base), a boolean, or a plain object given as an association list
of fields (rss-parser stores text content under the field `_`). -/
inductive JSVal where
  | null : JSVal
  | undef : JSVal
  | str : String → JSVal
  | num : Int → JSVal
  | bool : Bool → JSVal
  | obj : List (String × JSVal) → JSVal
deriving Repr

/-- JavaScript `String(x)` on the modelled values (a plain object renders
as `[object Object]`). -/
def jsToString : JSVal → String
  | .null => "null"
  | .undef => "undefined"
  | .str s => s
  | .num n => toString n
  | .bool b => toString b
  | .obj _ => "[object Object]"

/-- JavaScript truthiness of a modelled value. -/
def jsTruthy : JSVal → Bool
  | .null => false
  | .undef => false
  | .str s => s ≠ ""
  | .num n => n ≠ 0
  | .bool b => b
  | .obj _ => true

/-- JavaScript truthiness of an optional string field (`undefined` and the
empty string are falsy). -/
def jsTruthyS : Option String → Bool
  | none => false
  | some s => s ≠ ""

/-- `safeString` from src/lib/rss.ts: coerce a value to a string.
`null`/`undefined` give `""`; strings pass through; numbers and booleans
are stringified; an object yields its `_` text field (stringified when it
is a non-null non-string), else `""`.  The trailing `String(value)` of the
source is unreachable for the modelled value space (no symbols or
functions are modelled). -/
def safeString (value : JSVal) : String :=
  match value with
  | .null => ""
  | .undef => ""
  | .str s => s
  | .num n => toString n
  | .bool b => toString b
  | .obj fields =>
    match fields.lookup "_" with
    | some (.str s) => s
    | some .null => ""
    | some .undef => ""
    | some w => jsToString w
    | none => ""

/-- One global single-character replacement pass, modelling
`str.replace(/c/g, rep)` for a single-character pattern `c`. -/
def replaceAllChar (c : Char) (rep : List Char) (l : List Char) : List Char :=
  l.flatMap (fun x => if x = c then rep else [x])

/-- `escapeXml` from src/lib/rss.ts on the character list of the coerced
string: the five sequential global replaces
`& → &amp;`, `< → &lt;`, `> → &gt;`, `" → &quot;`, `' → &apos;`,
applied in source order. -/
def escapeXmlL (l : List Char) : List Char :=
  replaceAllChar '\'' ['&', 'a', 'p', 'o', 's', ';']
    (replaceAllChar '"' ['&', 'q', 'u', 'o', 't', ';']
      (replaceAllChar '>' ['&', 'g', 't', ';']
        (replaceAllChar '<' ['&', 'l', 't', ';']
          (replaceAllChar '&' ['&', 'a', 'm', 'p', ';'] l))))

/-- `escapeXml` from src/lib/rss.ts: coerce with `safeString`, then apply
the five global entity replacements.  (The `if (!str) return ""` early
exit of the source returns the same value the replacements produce on an
empty string.) -/
def escapeXml (value : JSVal) : String :=
  String.mk (escapeXmlL (safeString value).data)

/-- `escapeXml` applied to a plain string (the common call shape in the
source, where the argument is a string-typed field). -/
def escapeXmlS (s : String) : String := escapeXml (.str s)

/-- `wrapCDATA` from src/lib/rss.ts. -/
def wrapCDATA (content : JSVal) : String :=
  "<![CDATA[" ++ safeString content ++ "]]>"

/-- `encodeContent` from the route module:
`content.replace(/[^\x20-\x7E\n\r\t]/g, "")`, i.e. keep exactly the
printable-ASCII characters together with newline, carriage return and
tab, deleting everything else. -/
def encodeContent (content : String) : String :=
  String.mk (content.data.filter
    (fun c => (0x20 ≤ c.toNat && c.toNat ≤ 0x7E) || c = '\n' || c = '\r' || c = '\t'))

/-- The common item shape (`CustomItem` from src/lib/types.ts).  `guid`
and the elements of `categories` may be attribute-bearing objects at
runtime, hence are `JSVal`; absent optional fields are `none`
(`undefined`). -/
structure CustomItem where
  title : Option String := none
  link : Option String := none
  pubDate : Option String := none
  isoDate : Option String := none
  content : Option String := none
  contentSnippet : Option String := none
  creator : Option String := none
  guid : JSVal := .undef
  categories : Option (List JSVal) := none
  sourceFeedTitle : Option String := none
  sourceFeedUrl : Option String := none
deriving Repr

/-- `CustomFeed` from src/lib/types.ts. -/
structure CustomFeed where
  title : Option String := none
  description : Option String := none
  link : Option String := none
  items : List CustomItem := []
deriving Repr

/-- A per-source result as consumed by `mergeFeeds`. -/
structure FeedResult where
  feed : Option CustomFeed := none
  error : Option String := none
  url : Option String := none
deriving Repr

/-- The three renderings of the current instant used by the code:
`new Date().toUTCString()`, `new Date().toISOString()`, `Date.now()`. -/
structure Clock where
  utcString : String
  isoString : String
  millis : Nat
deriving Repr

/-! ## Merge engine (`mergeFeeds`) -/

/-- The sort key computed by the comparator inside `mergeFeeds`:
`a.isoDate ? new Date(a.isoDate) : new Date(a.pubDate || 0)`, as an epoch
value under the date-parse oracle `pd`.  A falsy `pubDate` yields
`new Date(0)`, i.e. epoch 0. -/
def itemKey (pd : String → Int) (it : CustomItem) : Int :=
  if jsTruthyS it.isoDate then pd (it.isoDate.getD "")
  else if jsTruthyS it.pubDate then pd (it.pubDate.getD "")
  else 0

/-- Insert an item into a list already sorted by descending `itemKey`,
before the first element whose key is at most the key of the inserted
item.  This is the insertion step of a stable descending sort, the
behaviour of the (ECMAScript-stable) `Array.prototype.sort` under the
comparator `dateB.getTime() - dateA.getTime()`. -/
def insertByKeyDesc (pd : String → Int) (x : CustomItem) : List CustomItem → List CustomItem
  | [] => [x]
  | y :: ys =>
    if itemKey pd y ≤ itemKey pd x then x :: y :: ys
    else y :: insertByKeyDesc pd x ys

/-- Stable sort of the real items by descending date key, modelling
`allItems.sort((a, b) => dateB.getTime() - dateA.getTime())`. -/
def sortByDateDesc (pd : String → Int) : List CustomItem → List CustomItem
  | [] => []
  | x :: xs => insertByKeyDesc pd x (sortByDateDesc pd xs)

/-- The `allItems` accumulation of `mergeFeeds`: for each result, if its
`error` is truthy it is a failure (contributes nothing here); otherwise
its items are appended when the feed is present and its item list is
nonempty. -/
def collectItems (results : List FeedResult) : List CustomItem :=
  results.flatMap (fun r =>
    if jsTruthyS r.error then []
    else match r.feed with
      | some f => if f.items.length > 0 then f.items else []
      | none => [])

/-- The `failedFeeds` accumulation of `mergeFeeds`: the results with a
truthy `error`, keeping `(url || "unknown", error)`. -/
def failedFeeds (results : List FeedResult) : List (String × String) :=
  results.filterMap (fun r =>
    if jsTruthyS r.error then some (r.url.getD "unknown", r.error.getD "")
    else none)

/-- The synthetic failure items of `mergeFeeds` (`errorItems` in the
source), one per failed feed, stamped with the current time. -/
def mkErrorItems (clock : Clock) (results : List FeedResult) : List CustomItem :=
  (failedFeeds results).map (fun failed =>
    { title := some ("⚠️ Failed to load feed: " ++ failed.1)
      link := some failed.1
      pubDate := some clock.utcString
      isoDate := some clock.isoString
      contentSnippet := some ("Error: " ++ failed.2)
      content := some ("<p>Failed to load this feed:</p><p><code>" ++ escapeXmlS failed.1
        ++ "</code></p><p>Error: " ++ escapeXmlS failed.2 ++ "</p>")
      guid := .str ("error-" ++ failed.1 ++ "-" ++ toString clock.millis) })

/-- The titles of successful feeds collected for the merged description:
`results.filter(({feed}) => feed && feed.title).map(...).filter(Boolean)`. -/
def successfulFeedTitles (results : List FeedResult) : List String :=
  results.filterMap (fun r =>
    match r.feed with
    | some f => match f.title with
      | some t => if t ≠ "" then some t else none
      | none => none
    | none => none)

/-- `mergeFeeds` from src/lib/rss.ts: collect items and failures, build
one synthetic item per failure, sort the real items by date descending
(stably), prepend the failure items, and truncate to 100. -/
def mergeFeeds (pd : String → Int) (clock : Clock)
    (results : List FeedResult) (requestUrl : Option String) : CustomFeed :=
  let allItems := sortByDateDesc pd (collectItems results)
  let errorItems := mkErrorItems clock results
  let allItemsWithErrors := errorItems ++ allItems
  { title := some "Merged Feed"
    description := some ("Combined feed from "
      ++ String.intercalate ", " (successfulFeedTitles results)
      ++ (if (failedFeeds results).length > 0 then
            " (" ++ toString (failedFeeds results).length ++ " feed(s) failed to load)"
          else ""))
    link := requestUrl
    items := allItemsWithErrors.take 100 }

/-! ## RSS serializer (`generateRSS`) -/

/-- The value whose coercion is rendered inside `<guid>`:
`item.guid || item.link || ""`. -/
def guidVal (item : CustomItem) : JSVal :=
  if jsTruthy item.guid then item.guid
  else if jsTruthyS item.link then .str (item.link.getD "")
  else .str ""

/-- The `<title>` line of the item template: escaped title when truthy,
else an empty self-closing tag. -/
def titleXml (item : CustomItem) : String :=
  if jsTruthyS item.title then
    "      " ++ ("<title>" ++ escapeXmlS (item.title.getD "") ++ "</title>") ++ "\n"
  else "      <title />\n"

/-- The `<link>` line of the item template, emitted only when truthy. -/
def linkXml (item : CustomItem) : String :=
  if jsTruthyS item.link then
    "      " ++ ("<link>" ++ escapeXmlS (item.link.getD "") ++ "</link>") ++ "\n"
  else ""

/-- The `<guid>` line of the item template, always emitted. -/
def guidXml (item : CustomItem) : String :=
  "      " ++ ("<guid>" ++ escapeXml (guidVal item) ++ "</guid>") ++ "\n"

/-- The `<pubDate>` line: `pubDate` when truthy, else `isoDate` when
truthy, else nothing. -/
def pubDateXml (item : CustomItem) : String :=
  if jsTruthyS item.pubDate then
    "      <pubDate>" ++ escapeXmlS (item.pubDate.getD "") ++ "</pubDate>\n"
  else if jsTruthyS item.isoDate then
    "      <pubDate>" ++ escapeXmlS (item.isoDate.getD "") ++ "</pubDate>\n"
  else ""

/-- The `<dc:creator>` line, CDATA-wrapped, when truthy. -/
def creatorXml (item : CustomItem) : String :=
  if jsTruthyS item.creator then
    "      <dc:creator>" ++ wrapCDATA (.str (item.creator.getD "")) ++ "</dc:creator>\n"
  else ""

/-- The content line: `<content:encoded>` with the raw content in CDATA
when `content` is truthy (deliberately not passed through
`encodeContent`), else `<description>` with the control-character
stripped and XML-escaped snippet when that is truthy, else nothing. -/
def contentXml (item : CustomItem) : String :=
  if jsTruthyS item.content then
    "      " ++ ("<content:encoded>" ++ wrapCDATA (.str (item.content.getD ""))
      ++ "</content:encoded>") ++ "\n"
  else if jsTruthyS item.contentSnippet then
    "      " ++ ("<description>" ++ escapeXmlS (encodeContent (item.contentSnippet.getD ""))
      ++ "</description>") ++ "\n"
  else ""

/-- The `<category>` lines, one per category, text payload only. -/
def categoriesXml (item : CustomItem) : String :=
  match item.categories with
  | some cats =>
    if cats.length > 0 then
      String.join (cats.map (fun category =>
        "      " ++ ("<category>" ++ escapeXml category ++ "</category>") ++ "\n"))
    else ""
  | none => ""

/-- The `<source>` line, emitted only when both provenance fields are
truthy. -/
def sourceXml (item : CustomItem) : String :=
  if jsTruthyS item.sourceFeedTitle && jsTruthyS item.sourceFeedUrl then
    "      <source url=\"" ++ escapeXmlS (item.sourceFeedUrl.getD "")
      ++ "\">" ++ escapeXmlS (item.sourceFeedTitle.getD "") ++ "</source>\n"
  else ""

/-- The per-item XML fragment built by the `map` body of `generateRSS`
(the source accumulates these chunks into `itemXml` with `+=`). -/
def renderItem (item : CustomItem) : String :=
  "    <item>\n"
  ++ titleXml item
  ++ linkXml item
  ++ guidXml item
  ++ pubDateXml item
  ++ creatorXml item
  ++ contentXml item
  ++ categoriesXml item
  ++ sourceXml item
  ++ "    </item>\n"

/-- `generateRSS` from src/lib/rss.ts (the `clock` argument models the
`new Date().toUTCString()` read for `lastBuildDate`). -/
def generateRSS (clock : Clock) (mergedFeed : CustomFeed) (requestUrl : Option String) : String :=
  "<?xml version=\"1.0\" encoding=\"UTF-8\"?>\n"
  ++ "<rss version=\"2.0\" xmlns:content=\"http://purl.org/rss/1.0/modules/content/\" xmlns:dc=\"http://purl.org/dc/elements/1.1/\">\n"
  ++ "  <channel>\n"
  ++ "    <title>" ++ escapeXmlS (if jsTruthyS mergedFeed.title then mergedFeed.title.getD "" else "Merged Feed") ++ "</title>\n"
  ++ "    <description>" ++ escapeXmlS (if jsTruthyS mergedFeed.description then mergedFeed.description.getD "" else "Combined feed from multiple sources") ++ "</description>\n"
  ++ "    <link>" ++ escapeXmlS (if jsTruthyS mergedFeed.link then mergedFeed.link.getD ""
        else if jsTruthyS requestUrl then requestUrl.getD "" else "") ++ "</link>\n"
  ++ "    <lastBuildDate>" ++ clock.utcString ++ "</lastBuildDate>\n"
  ++ "    <generator>" ++ "rssrssrssrss" ++ "</generator>\n"
  ++ String.join ((mergedFeed.items.map renderItem))
  ++ "  </channel>\n</rss>"

/-! ## Fetch + normalize (`parseFeedFromUrl`, `parseFeedFromDiscoveredUrl`) -/

/-- Network oracle: the resolved outcome, per URL, of each
network-touching helper.  `tryJson` models `tryParseAsJSONFeed` (which
catches all of its own failures and returns `null`), `parseURL` models
`parser.parseURL` (whose failure is a thrown error carrying a message),
`discoverHtml` models `discoverFeedFromHtml` (which catches all of its
own failures and returns `null`). -/
structure Net where
  tryJson : String → Option CustomFeed
  parseURL : String → Except String CustomFeed
  discoverHtml : String → Option String

/-- The result shape of `parseFeedFromUrl`. -/
structure FetchResult where
  feed : Option CustomFeed
  error : Option String
deriving Repr

/-- The per-item provenance stamping done after `parser.parseURL`:
every item gets `sourceFeedTitle = feed.title` and
`sourceFeedUrl = <the URL fetched>`. -/
def stampItems (url : String) (feed : CustomFeed) : CustomFeed :=
  { feed with items := feed.items.map (fun item =>
      { item with sourceFeedTitle := feed.title, sourceFeedUrl := some url }) }

/-- `parseFeedFromDiscoveredUrl` from src/lib/rss.ts, instrumented with a
count of `discoverFeedFromHtml` invocations (always 0: this path never
attempts discovery). -/
def parseFeedFromDiscoveredUrl (net : Net) (feedUrl : String) (_originalUrl : String) :
    FetchResult × Nat :=
  match net.tryJson feedUrl with
  | some jsonFeed => (⟨some jsonFeed, none⟩, 0)
  | none =>
    match net.parseURL feedUrl with
    | .ok feed => (⟨some (stampItems feedUrl feed), none⟩, 0)
    | .error e => (⟨none, some e⟩, 0)

/-- `parseFeedFromUrl` from src/lib/rss.ts, instrumented with a count of
`discoverFeedFromHtml` invocations. -/
def parseFeedFromUrl (net : Net) (url : String) : FetchResult × Nat :=
  match net.tryJson url with
  | some jsonFeed => (⟨some jsonFeed, none⟩, 0)
  | none =>
    match net.parseURL url with
    | .ok feed => (⟨some (stampItems url feed), none⟩, 0)
    | .error e =>
      match net.discoverHtml url with
      | some discoveredFeedUrl =>
        let (r, n) := parseFeedFromDiscoveredUrl net discoveredFeedUrl url
        (r, n + 1)
      | none => (⟨none, some e⟩, 1)

/-! ## Feed discovery (`discoverFeedFromHtml`) -/

/-- The components of `new URL(url)` used by the discovery code, for a
well-formed absolute http(s)-style URL: `protocol` (with trailing
colon), `origin` (scheme plus host) and `pathname`. -/
structure UrlParts where
  protocol : String
  origin : String
  pathname : String
deriving Repr, DecidableEq

/-- Split a character list at the first `://`, returning the scheme part
and the remainder. -/
def findSchemeSplit : List Char → Option (List Char × List Char)
  | [] => none
  | ':' :: '/' :: '/' :: rest => some ([], rest)
  | c :: rest => (findSchemeSplit rest).map (fun p => (c :: p.1, p.2))

/-- A model of `new URL(url)` restricted to the absolute URLs the
discovery code resolves against: scheme, host up to the first slash, and
the remaining pathname (empty pathname normalizes to `/`).  Returns
`none` (the constructor throws) when there is no `://` or the scheme or
host is empty. -/
def parseUrl (url : String) : Option UrlParts :=
  match findSchemeSplit url.data with
  | none => none
  | some (scheme, rest) =>
    if scheme = [] then none
    else
      let host := rest.takeWhile (fun c => c ≠ '/')
      let path := rest.dropWhile (fun c => c ≠ '/')
      if host = [] then none
      else some
        { protocol := String.mk scheme ++ ":"
          origin := String.mk scheme ++ "://" ++ String.mk host
          pathname := if path = [] then "/" else String.mk path }

/-- JavaScript `String.prototype.startsWith`. -/
def jsStartsWith (s p : String) : Bool :=
  p.data.isPrefixOf s.data

/-- JavaScript `String.prototype.split` with a single-character
separator. -/
def splitChar (sep : Char) : List Char → List (List Char)
  | [] => [[]]
  | c :: rest =>
    if c = sep then [] :: splitChar sep rest
    else
      match splitChar sep rest with
      | [] => [[c]]
      | p :: ps => (c :: p) :: ps

/-- JavaScript `Array.prototype.join("/")` on character-list parts. -/
def joinWithSlash : List (List Char) → List Char
  | [] => []
  | [p] => p
  | p :: ps => p ++ '/' :: joinWithSlash ps

/-- The href-resolution cascade of `discoverFeedFromHtml` (lines 78-94):
absolute http(s) URLs pass through; `//...` inherits the protocol;
`/...` is appended to the origin; otherwise the href is resolved against
the directory of the original pathname (`split("/")`, pop, rejoin).
`none` models the `new URL` constructor throwing, which the enclosing
`catch` turns into a `null` result. -/
def resolveHref (url : String) (href : String) : Option String :=
  if jsStartsWith href "http://" || jsStartsWith href "https://" then some href
  else
    match parseUrl url with
    | none => none
    | some baseUrl =>
      if jsStartsWith href "//" then some (baseUrl.protocol ++ href)
      else if jsStartsWith href "/" then some (baseUrl.origin ++ href)
      else
        let pathParts := (splitChar '/' baseUrl.pathname.data).dropLast
        some (baseUrl.origin ++ String.mk (joinWithSlash pathParts) ++ "/" ++ href)

/-- One `<link rel="alternate" ...>` tag as matched by the scanning
regexes: its `type` and `href` attribute values, when present.  The
lexical extraction of the tags from the HTML text is abstracted; the
selection loop and resolution below follow the source exactly. -/
structure LinkTag where
  type? : Option String := none
  href? : Option String := none
deriving Repr

/-- Bool substring test on character lists (the model of JavaScript
`String.prototype.includes`). -/
def hasSub (needle : List Char) : List Char → Bool
  | [] => needle.isPrefixOf []
  | c :: rest => needle.isPrefixOf (c :: rest) || hasSub needle rest

/-- The feed-media-type test of the discovery loop, applied to the
lowercased `type` attribute. -/
def isFeedType (t : String) : Bool :=
  hasSub "application/rss+xml".data t.data
  || hasSub "application/atom+xml".data t.data
  || hasSub "application/feed+json".data t.data
  || hasSub "application/json".data t.data

/-- JavaScript `String.prototype.toLowerCase` (per-character lowering). -/
def jsToLower (s : String) : String :=
  String.mk (s.data.map Char.toLower)

/-- The selection loop of `discoverFeedFromHtml` over the matched link
tags: skip tags missing `type` or `href`, return the resolution of the
first tag whose lowercased type is a feed media type, else `null`. -/
def discoverFeedFromHtml (url : String) : List LinkTag → Option String
  | [] => none
  | tag :: rest =>
    match tag.type?, tag.href? with
    | some ty, some href =>
      if isFeedType (jsToLower ty) then resolveHref url href
      else discoverFeedFromHtml url rest
    | _, _ => discoverFeedFromHtml url rest

/-! ## JSON Feed serializer (`generateJSONFeed`) and a JSON reader -/

/-- JSON values as produced by `generateJSONFeed`: the object built there
contains only strings, arrays, objects and (never, after the
undefined-omission of `JSON.stringify`) nulls; numbers do not occur. -/
inductive Json where
  | null : Json
  | str : String → Json
  | arr : List Json → Json
  | obj : List (String × Json) → Json

/-- Lowercase hex digit, as produced by JavaScript `toString(16)`. -/
def hexDigit (n : Nat) : Char :=
  if n < 10 then Char.ofNat (48 + n) else Char.ofNat (87 + n)

/-- The escaping `JSON.stringify` applies inside string literals:
quote and backslash are backslash-escaped, the named control escapes are
used for backspace, form feed, newline, carriage return and tab, any
other control character below U+0020 becomes `\u00xx`, and everything
else is emitted verbatim. -/
def jescChar (c : Char) : List Char :=
  if c = '"' then ['\\', '"']
  else if c = '\\' then ['\\', '\\']
  else if c = '\x08' then ['\\', 'b']
  else if c = '\x0c' then ['\\', 'f']
  else if c = '\n' then ['\\', 'n']
  else if c = '\r' then ['\\', 'r']
  else if c = '\t' then ['\\', 't']
  else if c.toNat < 0x20 then
    ['\\', 'u', '0', '0', hexDigit (c.toNat / 16), hexDigit (c.toNat % 16)]
  else [c]

/-- A JSON string literal: escaped content between double quotes. -/
def jstrL (s : String) : List Char :=
  '"' :: s.data.flatMap jescChar ++ ['"']

/-- Two-space indentation at nesting depth `d`, the gap produced by
`JSON.stringify(value, null, 2)`. -/
def jindent (d : Nat) : List Char :=
  List.replicate (2 * d) ' '

mutual

/-- Rendering of a JSON value at nesting depth `d`, following the layout
of `JSON.stringify(value, null, 2)`: empty arrays and objects are
`[]` and `\x7b\x7d`; nonempty ones put every element on its own indented
line, separated by commas, with the closing bracket on the indentation
of the parent. -/
def renderJson (d : Nat) : Json → List Char
  | .null => ['n', 'u', 'l', 'l']
  | .str s => jstrL s
  | .arr es =>
    match es with
    | [] => ['[', ']']
    | e :: rest =>
      '[' :: '\n' :: (renderElems d e rest ++ '\n' :: jindent d ++ [']'])
  | .obj ms =>
    match ms with
    | [] => ['\x7b', '\x7d']
    | m :: rest =>
      '\x7b' :: '\n' :: (renderMembers d m rest ++ '\n' :: jindent d ++ ['\x7d'])
termination_by j => sizeOf j
decreasing_by all_goals (simp_wf <;> omega)

/-- The comma-separated element lines of a nonempty array. -/
def renderElems (d : Nat) (e : Json) : List Json → List Char
  | [] => jindent (d + 1) ++ renderJson (d + 1) e
  | e2 :: rest =>
    jindent (d + 1) ++ renderJson (d + 1) e ++ ',' :: '\n' :: renderElems d e2 rest
termination_by es => sizeOf e + sizeOf es
decreasing_by all_goals (simp_wf <;> omega)

/-- The comma-separated member lines of a nonempty object. -/
def renderMembers : Nat → String × Json → List (String × Json) → List Char
  | d, (k, v), [] => jindent (d + 1) ++ jstrL k ++ ':' :: ' ' :: renderJson (d + 1) v
  | d, (k, v), m2 :: rest =>
    jindent (d + 1) ++ jstrL k ++ ':' :: ' ' :: renderJson (d + 1) v
      ++ ',' :: '\n' :: renderMembers d m2 rest
termination_by _d m ms => sizeOf m + sizeOf ms
decreasing_by all_goals (simp_wf <;> omega)

end

/-- The JSON object literal built by `generateJSONFeed` for one item.
`JSON.stringify` omits properties whose value is `undefined`, so absent
optional fields produce no member.  `uuid` models the
`crypto.randomUUID()` fallback used when both `guid` and `link` coerce
to falsy strings. -/
def jsonFeedItem (uuid : String) (item : CustomItem) : Json :=
  .obj (
    [("id", Json.str (
        if safeString item.guid ≠ "" then safeString item.guid
        else if safeString (.str (item.link.getD "")) ≠ "" ∧ item.link.isSome then item.link.getD ""
        else uuid))]
    ++ (match item.link with
        | some l => [("url", Json.str l)]
        | none => [])
    ++ (match item.title with
        | some t => [("title", Json.str t)]
        | none => [])
    ++ (match item.content with
        | some c => [("content_html", Json.str c)]
        | none => [])
    ++ (match item.contentSnippet with
        | some c => [("content_text", Json.str c)]
        | none => [])
    ++ (match (if jsTruthyS item.isoDate then item.isoDate else item.pubDate) with
        | some dt => [("date_published", Json.str dt)]
        | none => [])
    ++ (if jsTruthyS item.creator then
          [("author", Json.obj [("name", Json.str (item.creator.getD ""))])]
        else [])
    ++ (match item.categories with
        | some cats => [("tags", Json.arr (cats.map (fun cat => Json.str (safeString cat))))]
        | none => []))

/-- The top-level JSON Feed object built by `generateJSONFeed`. -/
def jsonFeedObj (uuid : String) (mergedFeed : CustomFeed) (requestUrl : Option String) : Json :=
  .obj (
    [("version", Json.str "https://jsonfeed.org/version/1.1"),
     ("title", Json.str (if jsTruthyS mergedFeed.title then mergedFeed.title.getD ""
       else "Merged Feed"))]
    ++ (match mergedFeed.description with
        | some d => [("description", Json.str d)]
        | none => [])
    ++ (match mergedFeed.link with
        | some l => [("home_page_url", Json.str l)]
        | none => [])
    ++ (match requestUrl with
        | some r => [("feed_url", Json.str r)]
        | none => [])
    ++ [("items", Json.arr (mergedFeed.items.map (jsonFeedItem uuid)))])

/-- `generateJSONFeed` from src/lib/rss.ts:
`JSON.stringify(jsonFeed, null, 2)` of the object above. -/
def generateJSONFeed (uuid : String) (mergedFeed : CustomFeed) (requestUrl : Option String) : String :=
  String.mk (renderJson 0 (jsonFeedObj uuid mergedFeed requestUrl))

/-- Whitespace characters insignificant between JSON tokens. -/
def isWsChar (c : Char) : Bool :=
  c = ' ' || c = '\n' || c = '\t' || c = '\r'

/-- Skip leading insignificant whitespace. -/
def skipWs : List Char → List Char
  | [] => []
  | c :: rest => if isWsChar c then skipWs rest else c :: rest

/-- Value of one hex digit, accepting both cases. -/
def decodeHexDigit (c : Char) : Option Nat :=
  if '0' ≤ c ∧ c ≤ '9' then some (c.toNat - 48)
  else if 'a' ≤ c ∧ c ≤ 'f' then some (c.toNat - 87)
  else if 'A' ≤ c ∧ c ≤ 'F' then some (c.toNat - 55)
  else none

/-- Read the body of a JSON string literal after its opening quote,
decoding escapes, up to and including the closing quote.  Returns the
decoded characters and the remaining input. -/
def parseStrBody : Nat → List Char → Option (List Char × List Char)
  | 0, _ => none
  | _, [] => none
  | fuel + 1, c :: rest =>
    if c = '"' then some ([], rest)
    else if c = '\\' then
      match rest with
      | '"' :: rest2 => (parseStrBody fuel rest2).map (fun p => ('"' :: p.1, p.2))
      | '\\' :: rest2 => (parseStrBody fuel rest2).map (fun p => ('\\' :: p.1, p.2))
      | '/' :: rest2 => (parseStrBody fuel rest2).map (fun p => ('/' :: p.1, p.2))
      | 'b' :: rest2 => (parseStrBody fuel rest2).map (fun p => ('\x08' :: p.1, p.2))
      | 'f' :: rest2 => (parseStrBody fuel rest2).map (fun p => ('\x0c' :: p.1, p.2))
      | 'n' :: rest2 => (parseStrBody fuel rest2).map (fun p => ('\n' :: p.1, p.2))
      | 'r' :: rest2 => (parseStrBody fuel rest2).map (fun p => ('\r' :: p.1, p.2))
      | 't' :: rest2 => (parseStrBody fuel rest2).map (fun p => ('\t' :: p.1, p.2))
      | 'u' :: h1 :: h2 :: h3 :: h4 :: rest2 =>
        match decodeHexDigit h1, decodeHexDigit h2, decodeHexDigit h3, decodeHexDigit h4 with
        | some a, some b, some c3, some c4 =>
          (parseStrBody fuel rest2).map
            (fun p => (Char.ofNat (4096 * a + 256 * b + 16 * c3 + c4) :: p.1, p.2))
        | _, _, _, _ => none
      | _ => none
    else (parseStrBody fuel rest).map (fun p => (c :: p.1, p.2))

mutual

/-- Read one JSON value (of the fragment produced by the serializer:
strings, arrays, objects, null), consuming leading whitespace. -/
def parseJsonVal : Nat → List Char → Option (Json × List Char)
  | 0, _ => none
  | fuel + 1, l =>
    match skipWs l with
    | 'n' :: 'u' :: 'l' :: 'l' :: rest => some (.null, rest)
    | '"' :: rest =>
      (parseStrBody (fuel + 1) rest).map (fun p => (.str (String.mk p.1), p.2))
    | '[' :: rest =>
      (match skipWs rest with
       | ']' :: rest2 => some (.arr [], rest2)
       | rest2 => (parseJsonElems fuel rest2).map (fun p => (.arr p.1, p.2)))
    | '\x7b' :: rest =>
      (match skipWs rest with
       | '\x7d' :: rest2 => some (.obj [], rest2)
       | rest2 => (parseJsonMembers fuel rest2).map (fun p => (.obj p.1, p.2)))
    | _ => none

/-- Read the elements of a nonempty array after its opening bracket,
up to and including the closing bracket. -/
def parseJsonElems : Nat → List Char → Option (List Json × List Char)
  | 0, _ => none
  | fuel + 1, l =>
    match parseJsonVal fuel l with
    | none => none
    | some (v, rest) =>
      match skipWs rest with
      | ',' :: rest2 => (parseJsonElems fuel rest2).map (fun p => (v :: p.1, p.2))
      | ']' :: rest2 => some ([v], rest2)
      | _ => none

/-- Read the members of a nonempty object after its opening brace,
up to and including the closing brace. -/
def parseJsonMembers : Nat → List Char → Option (List (String × Json) × List Char)
  | 0, _ => none
  | fuel + 1, l =>
    match skipWs l with
    | '"' :: rest =>
      (match parseStrBody (fuel + 1) rest with
       | none => none
       | some (key, rest1) =>
         match skipWs rest1 with
         | ':' :: rest2 =>
           (match parseJsonVal fuel rest2 with
            | none => none
            | some (v, rest3) =>
              match skipWs rest3 with
              | ',' :: rest4 =>
                (parseJsonMembers fuel rest4).map
                  (fun p => ((String.mk key, v) :: p.1, p.2))
              | '\x7d' :: rest4 => some ([(String.mk key, v)], rest4)
              | _ => none)
         | _ => none)
    | _ => none

end

/-- `JSON.parse` on the fragment of JSON the serializer emits: one value,
surrounded by at most whitespace. -/
def jsonParse (s : String) : Option Json :=
  match parseJsonVal (s.data.length + 1) s.data with
  | some (j, rest) => if skipWs rest = [] then some j else none
  | none => none

/-! ## Counting helpers for the merge claims -/

/-- Number of failed results: those whose `error` is truthy. -/
def numFailedResults (results : List FeedResult) : Nat :=
  results.countP (fun r => jsTruthyS r.error)

/-- Total number of items across the non-failed results. -/
def totalSuccessItems (results : List FeedResult) : Nat :=
  (results.map (fun r =>
    if jsTruthyS r.error then 0
    else match r.feed with
      | some f => f.items.length
      | none => 0)).sum

theorem length_insertByKeyDesc (pd : String → Int) (x : CustomItem) (l : List CustomItem) :
    (insertByKeyDesc pd x l).length = l.length + 1 := by
  induction l with
  | nil => rfl
  | cons y ys ih =>
    simp only [insertByKeyDesc]
    split <;> simp [ih]

theorem length_sortByDateDesc (pd : String → Int) (l : List CustomItem) :
    (sortByDateDesc pd l).length = l.length := by
  induction l with
  | nil => rfl
  | cons x xs ih => simp [sortByDateDesc, length_insertByKeyDesc, ih]

theorem length_mkErrorItems (clock : Clock) (results : List FeedResult) :
    (mkErrorItems clock results).length = numFailedResults results := by
  unfold mkErrorItems failedFeeds numFailedResults
  rw [List.length_map]
  induction results with
  | nil => rfl
  | cons r rs ih =>
    simp only [List.filterMap_cons, List.countP_cons]
    by_cases h : jsTruthyS r.error = true
    · simp [h, ih]
    · simp [h, ih, if_neg]

theorem length_collectItems (results : List FeedResult) :
    (collectItems results).length = totalSuccessItems results := by
  unfold collectItems totalSuccessItems
  induction results with
  | nil => rfl
  | cons r rs ih =>
    simp only [List.flatMap_cons, List.map_cons, List.sum_cons, List.length_append, ih]
    by_cases h : jsTruthyS r.error = true
    · simp [h]
    · simp only [h]
      cases hf : r.feed with
      | none => simp
      | some f =>
        by_cases hl : f.items.length > 0
        · simp [hl]
        · simp only [if_neg hl, Bool.false_eq_true, if_false, List.length_nil]
          omega

/-- C1 helper: membership in the stable insertion. -/
theorem mem_insertByKeyDesc {pd : String → Int} {x a : CustomItem} {l : List CustomItem}
    (h : a ∈ insertByKeyDesc pd x l) : a = x ∨ a ∈ l := by
  induction l with
  | nil => simpa [insertByKeyDesc] using h
  | cons y ys ih =>
    simp only [insertByKeyDesc] at h
    split at h
    · rcases List.mem_cons.mp h with h | h
      · exact Or.inl h
      · exact Or.inr h
    · rcases List.mem_cons.mp h with h | h
      · exact Or.inr (by simp [h])
      · rcases ih h with h | h
        · exact Or.inl h
        · exact Or.inr (by simp [h])

theorem mem_insertByKeyDesc_of {pd : String → Int} {x a : CustomItem} {l : List CustomItem}
    (h : a = x ∨ a ∈ l) : a ∈ insertByKeyDesc pd x l := by
  induction l with
  | nil =>
    rcases h with rfl | h
    · simp [insertByKeyDesc]
    · simp at h
  | cons y ys ih =>
    simp only [insertByKeyDesc]
    split
    · rcases h with rfl | h
      · simp
      · simp [h]
    · rcases h with rfl | h
      · exact List.mem_cons_of_mem y (ih (Or.inl rfl))
      · rcases List.mem_cons.mp h with rfl | h
        · simp
        · exact List.mem_cons_of_mem y (ih (Or.inr h))

theorem mem_sortByDateDesc {pd : String → Int} {a : CustomItem} {l : List CustomItem} :
    a ∈ sortByDateDesc pd l ↔ a ∈ l := by
  induction l with
  | nil => simp [sortByDateDesc]
  | cons x xs ih =>
    simp only [sortByDateDesc]
    constructor
    · intro h
      rcases mem_insertByKeyDesc h with rfl | h
      · simp
      · simp [ih.mp h]
    · intro h
      rcases List.mem_cons.mp h with rfl | h
      · exact mem_insertByKeyDesc_of (Or.inl rfl)
      · exact mem_insertByKeyDesc_of (Or.inr (ih.mpr h))

/-- C2 helper: inserting preserves descending pairwise order. -/
theorem pairwise_insertByKeyDesc (pd : String → Int) (x : CustomItem) {l : List CustomItem}
    (h : l.Pairwise (fun a b => itemKey pd b ≤ itemKey pd a)) :
    (insertByKeyDesc pd x l).Pairwise (fun a b => itemKey pd b ≤ itemKey pd a) := by
  induction l with
  | nil => simp [insertByKeyDesc]
  | cons y ys ih =>
    rcases List.pairwise_cons.mp h with ⟨hy, hys⟩
    simp only [insertByKeyDesc]
    split
    · rename_i hle
      refine List.pairwise_cons.mpr ⟨?_, h⟩
      intro z hz
      rcases List.mem_cons.mp hz with rfl | hz
      · exact hle
      · exact le_trans (hy z hz) hle
    · rename_i hgt
      push_neg at hgt
      refine List.pairwise_cons.mpr ⟨?_, ih hys⟩
      intro z hz
      rcases mem_insertByKeyDesc hz with rfl | hz
      · exact le_of_lt hgt
      · exact hy z hz

theorem pairwise_sortByDateDesc (pd : String → Int) (l : List CustomItem) :
    (sortByDateDesc pd l).Pairwise (fun a b => itemKey pd b ≤ itemKey pd a) := by
  induction l with
  | nil => simp [sortByDateDesc]
  | cons x xs ih => exact pairwise_insertByKeyDesc pd x ih

/-- C2 helper: the insertion step is stable, observed through filtering by
any fixed key value. -/
theorem filter_insertByKeyDesc (pd : String → Int) (x : CustomItem) (l : List CustomItem)
    (k : Int) :
    (insertByKeyDesc pd x l).filter (fun i => itemKey pd i == k)
      = (x :: l).filter (fun i => itemKey pd i == k) := by
  induction l with
  | nil => rfl
  | cons y ys ih =>
    simp only [insertByKeyDesc]
    split
    · rfl
    · rename_i hgt
      push_neg at hgt
      by_cases px : itemKey pd x = k
      · have py : ¬ itemKey pd y = k := by
          intro hk
          rw [hk, ← px] at hgt
          exact lt_irrefl _ hgt
        simp [List.filter_cons, px, py, ih]
      · by_cases py : itemKey pd y = k
        · simp [List.filter_cons, px, py, ih]
        · simp [List.filter_cons, px, py, ih]

theorem filter_sortByDateDesc (pd : String → Int) (l : List CustomItem) (k : Int) :
    (sortByDateDesc pd l).filter (fun i => itemKey pd i == k)
      = l.filter (fun i => itemKey pd i == k) := by
  induction l with
  | nil => rfl
  | cons x xs ih =>
    simp only [sortByDateDesc, filter_insertByKeyDesc, List.filter_cons, ih]

/-! ## Claim theorems: merge shape and ordering -/

/-- C1: for every input list of per-source results, the merged item list
is the failure items followed by the sorted real items, truncated to 100
only after that prepending (so the first block is the failure items), and
its length is exactly `min 100 (failures + items-across-successes)`. -/
theorem mergeFeeds_count_and_order (pd : String → Int) (clock : Clock)
    (results : List FeedResult) (requestUrl : Option String) :
    (mergeFeeds pd clock results requestUrl).items
      = (mkErrorItems clock results).take 100
        ++ (sortByDateDesc pd (collectItems results)).take
            (100 - (mkErrorItems clock results).length)
    ∧ (mergeFeeds pd clock results requestUrl).items.length
      = min 100 (numFailedResults results + totalSuccessItems results) := by
  constructor
  · simp only [mergeFeeds]
    exact List.take_append_eq_append_take
  · simp only [mergeFeeds, List.length_take, List.length_append,
      length_mkErrorItems, length_sortByDateDesc, length_collectItems]

/-- C2: in the merged output the real (non-failure) items are the stable
descending sort of the concatenation of the successful sources' item
lists: the sorted block is pairwise non-increasing in the date key, items
with equal keys keep their input order (the filter by any key value is
unchanged), and the output is that block appended after the failure items
and truncated to 100. -/
theorem mergeFeeds_sorted_and_stable (pd : String → Int) (clock : Clock)
    (results : List FeedResult) (requestUrl : Option String) :
    (sortByDateDesc pd (collectItems results)).Pairwise
        (fun a b => itemKey pd b ≤ itemKey pd a)
    ∧ (∀ k : Int,
        (sortByDateDesc pd (collectItems results)).filter (fun i => itemKey pd i == k)
          = (collectItems results).filter (fun i => itemKey pd i == k))
    ∧ (mergeFeeds pd clock results requestUrl).items
        = (mkErrorItems clock results ++ sortByDateDesc pd (collectItems results)).take 100 := by
  refine ⟨pairwise_sortByDateDesc pd _, fun k => filter_sortByDateDesc pd _ k, ?_⟩
  simp only [mergeFeeds]

/-- C10: the merged feed title is the fixed constant `"Merged Feed"`,
whatever the inputs; in particular no input data reaches the title. -/
theorem mergeFeeds_title_constant (pd : String → Int) (clock : Clock)
    (results : List FeedResult) (requestUrl : Option String) :
    (mergeFeeds pd clock results requestUrl).title = some "Merged Feed" := rfl

/-! ## Claim theorems: fetch error handling and one-hop discovery -/

theorem parseFeedFromDiscoveredUrl_feed_xor_error (net : Net) (feedUrl originalUrl : String) :
    (∃ f, (parseFeedFromDiscoveredUrl net feedUrl originalUrl).1.feed = some f
        ∧ (parseFeedFromDiscoveredUrl net feedUrl originalUrl).1.error = none)
    ∨ ((parseFeedFromDiscoveredUrl net feedUrl originalUrl).1.feed = none
        ∧ ∃ e, (parseFeedFromDiscoveredUrl net feedUrl originalUrl).1.error = some e) := by
  unfold parseFeedFromDiscoveredUrl
  cases hj : net.tryJson feedUrl with
  | some f => exact Or.inl ⟨f, rfl, rfl⟩
  | none =>
    cases hp : net.parseURL feedUrl with
    | ok f => exact Or.inl ⟨_, rfl, rfl⟩
    | error e => exact Or.inr ⟨rfl, e, rfl⟩

/-- C6: `parseFeedFromUrl` always resolves to a result in which exactly
one of `feed`/`error` is present: a non-null feed with a null error, or a
null feed with an error message string.  (Totality of the Lean function
is the never-throws part of the claim: every fetch or parse failure of
the oracle is converted into an error result.) -/
theorem parseFeedFromUrl_feed_xor_error (net : Net) (url : String) :
    (∃ f, (parseFeedFromUrl net url).1.feed = some f
        ∧ (parseFeedFromUrl net url).1.error = none)
    ∨ ((parseFeedFromUrl net url).1.feed = none
        ∧ ∃ e, (parseFeedFromUrl net url).1.error = some e) := by
  unfold parseFeedFromUrl
  cases hj : net.tryJson url with
  | some f => exact Or.inl ⟨f, rfl, rfl⟩
  | none =>
    cases hp : net.parseURL url with
    | ok f => exact Or.inl ⟨_, rfl, rfl⟩
    | error e =>
      cases hd : net.discoverHtml url with
      | some du =>
        simpa using parseFeedFromDiscoveredUrl_feed_xor_error net du url
      | none => exact Or.inr ⟨rfl, e, rfl⟩

/-- C8: discovery happens at most once per source URL: the discovered-URL
path performs no discovery at all, and the main path invokes discovery at
most once, so fetch-normalize terminates after at most one discovery hop
(the model functions are total by construction). -/
theorem discovery_at_most_once (net : Net) (url : String) :
    (parseFeedFromUrl net url).2 ≤ 1
    ∧ ∀ feedUrl originalUrl,
        (parseFeedFromDiscoveredUrl net feedUrl originalUrl).2 = 0 := by
  constructor
  · unfold parseFeedFromUrl
    cases hj : net.tryJson url with
    | some f => simp
    | none =>
      cases hp : net.parseURL url with
      | ok f => simp
      | error e =>
        cases hd : net.discoverHtml url with
        | some du =>
          unfold parseFeedFromDiscoveredUrl
          cases hj2 : net.tryJson du with
          | some f => simp [hj2]
          | none =>
            cases hp2 : net.parseURL du with
            | ok f => simp [hj2, hp2]
            | error e2 => simp [hj2, hp2]
        | none => simp
  · intro feedUrl originalUrl
    unfold parseFeedFromDiscoveredUrl
    cases hj : net.tryJson feedUrl with
    | some f => simp
    | none =>
      cases hp : net.parseURL feedUrl with
      | ok f => simp
      | error e => simp

/-! ## XML escaping: characterization, inverse, substring infrastructure -/

/-- Per-character effect of the five sequential replaces of `escapeXml`. -/
def escCharFn (c : Char) : List Char :=
  if c = '&' then ['&', 'a', 'm', 'p', ';']
  else if c = '<' then ['&', 'l', 't', ';']
  else if c = '>' then ['&', 'g', 't', ';']
  else if c = '"' then ['&', 'q', 'u', 'o', 't', ';']
  else if c = '\'' then ['&', 'a', 'p', 'o', 's', ';']
  else [c]

theorem escapeXmlL_nil : escapeXmlL [] = [] := rfl

theorem escapeXmlL_cons (c : Char) (l : List Char) :
    escapeXmlL (c :: l) = escCharFn c ++ escapeXmlL l := by
  by_cases h1 : c = '&'
  · subst h1; simp [escapeXmlL, replaceAllChar, escCharFn]
  · by_cases h2 : c = '<'
    · subst h2; simp [escapeXmlL, replaceAllChar, escCharFn]
    · by_cases h3 : c = '>'
      · subst h3; simp [escapeXmlL, replaceAllChar, escCharFn]
      · by_cases h4 : c = '"'
        · subst h4; simp [escapeXmlL, replaceAllChar, escCharFn]
        · by_cases h5 : c = '\''
          · subst h5; simp [escapeXmlL, replaceAllChar, escCharFn]
          · simp [escapeXmlL, replaceAllChar, escCharFn, h1, h2, h3, h4, h5]

/-- Entity decoding: the inverse scan an XML reader applies to character
data, replacing the five entities back by their characters. -/
def unescapeXmlL : List Char → List Char
  | [] => []
  | c :: rest =>
    if c = '&' ∧ rest.take 4 = ['a', 'm', 'p', ';'] then '&' :: unescapeXmlL (rest.drop 4)
    else if c = '&' ∧ rest.take 3 = ['l', 't', ';'] then '<' :: unescapeXmlL (rest.drop 3)
    else if c = '&' ∧ rest.take 3 = ['g', 't', ';'] then '>' :: unescapeXmlL (rest.drop 3)
    else if c = '&' ∧ rest.take 5 = ['q', 'u', 'o', 't', ';'] then '"' :: unescapeXmlL (rest.drop 5)
    else if c = '&' ∧ rest.take 5 = ['a', 'p', 'o', 's', ';'] then '\'' :: unescapeXmlL (rest.drop 5)
    else c :: unescapeXmlL rest
termination_by l => l.length
decreasing_by all_goals simp <;> omega

/-- Entity decoding on strings. -/
def unescapeXmlS (s : String) : String :=
  String.mk (unescapeXmlL s.data)

theorem unescapeXmlL_cons (c : Char) (rest : List Char) :
    unescapeXmlL (c :: rest) =
      if c = '&' ∧ rest.take 4 = ['a', 'm', 'p', ';'] then '&' :: unescapeXmlL (rest.drop 4)
      else if c = '&' ∧ rest.take 3 = ['l', 't', ';'] then '<' :: unescapeXmlL (rest.drop 3)
      else if c = '&' ∧ rest.take 3 = ['g', 't', ';'] then '>' :: unescapeXmlL (rest.drop 3)
      else if c = '&' ∧ rest.take 5 = ['q', 'u', 'o', 't', ';'] then
        '"' :: unescapeXmlL (rest.drop 5)
      else if c = '&' ∧ rest.take 5 = ['a', 'p', 'o', 's', ';'] then
        '\'' :: unescapeXmlL (rest.drop 5)
      else c :: unescapeXmlL rest := by
  rw [unescapeXmlL.eq_def]

/-- The escaping is lossless: entity decoding inverts it exactly. -/
theorem unescapeXmlL_escapeXmlL (l : List Char) : unescapeXmlL (escapeXmlL l) = l := by
  induction l with
  | nil => rw [escapeXmlL_nil, unescapeXmlL.eq_def]
  | cons c l ih =>
    rw [escapeXmlL_cons]
    by_cases h1 : c = '&'
    · subst h1
      show unescapeXmlL ('&' :: 'a' :: 'm' :: 'p' :: ';' :: escapeXmlL l) = '&' :: l
      rw [unescapeXmlL_cons]; simp [ih]
    · by_cases h2 : c = '<'
      · subst h2
        show unescapeXmlL ('&' :: 'l' :: 't' :: ';' :: escapeXmlL l) = '<' :: l
        rw [unescapeXmlL_cons]; simp [ih]
      · by_cases h3 : c = '>'
        · subst h3
          show unescapeXmlL ('&' :: 'g' :: 't' :: ';' :: escapeXmlL l) = '>' :: l
          rw [unescapeXmlL_cons]; simp [ih]
        · by_cases h4 : c = '"'
          · subst h4
            show unescapeXmlL ('&' :: 'q' :: 'u' :: 'o' :: 't' :: ';' :: escapeXmlL l)
              = '"' :: l
            rw [unescapeXmlL_cons]; simp [ih]
          · by_cases h5 : c = '\''
            · subst h5
              show unescapeXmlL ('&' :: 'a' :: 'p' :: 'o' :: 's' :: ';' :: escapeXmlL l)
                = '\'' :: l
              rw [unescapeXmlL_cons]; simp [ih]
            · rw [show escCharFn c = [c] by simp [escCharFn, h1, h2, h3, h4, h5],
                List.singleton_append, unescapeXmlL_cons]
              simp [h1, ih]

/-- String-level round trip of the XML escaping. -/
theorem unescapeXmlS_escapeXmlS (s : String) : unescapeXmlS (escapeXmlS s) = s := by
  cases s with
  | mk data =>
    simp [unescapeXmlS, escapeXmlS, escapeXml, safeString, unescapeXmlL_escapeXmlL]

/-- Escaped output never contains a raw `<`, `>`, `"` or `'`. -/
theorem escapeXmlL_no_raw_specials (l : List Char) :
    ∀ c ∈ escapeXmlL l, c ≠ '<' ∧ c ≠ '>' ∧ c ≠ '"' ∧ c ≠ '\'' := by
  induction l with
  | nil => simp [escapeXmlL_nil]
  | cons x l ih =>
    rw [escapeXmlL_cons]
    intro c hc
    rcases List.mem_append.mp hc with hc | hc
    · by_cases h1 : x = '&'
      · subst h1; simp [escCharFn] at hc
        rcases hc with rfl | rfl | rfl | rfl | rfl <;> decide
      · by_cases h2 : x = '<'
        · subst h2; simp [escCharFn] at hc
          rcases hc with rfl | rfl | rfl | rfl <;> decide
        · by_cases h3 : x = '>'
          · subst h3; simp [escCharFn] at hc
            rcases hc with rfl | rfl | rfl | rfl <;> decide
          · by_cases h4 : x = '"'
            · subst h4; simp [escCharFn] at hc
              rcases hc with rfl | rfl | rfl | rfl | rfl | rfl <;> decide
            · by_cases h5 : x = '\''
              · subst h5; simp [escCharFn] at hc
                rcases hc with rfl | rfl | rfl | rfl | rfl | rfl <;> decide
              · simp [escCharFn, h1, h2, h3, h4, h5] at hc
                subst hc
                exact ⟨h2, h3, h4, h5⟩
    · exact ih c hc

/-! ## Substring occurrence -/

/-- `needle` occurs contiguously inside `hay`. -/
def containsStr (needle hay : String) : Prop :=
  ∃ pre post : List Char, hay.data = pre ++ needle.data ++ post

theorem str_data_append (s t : String) : (s ++ t).data = s.data ++ t.data := rfl

theorem containsStr_wrap (a n b : String) : containsStr n (a ++ n ++ b) :=
  ⟨a.data, b.data, by simp [str_data_append, List.append_assoc]⟩

theorem containsStr_appendL (a : String) {n m : String} (h : containsStr n m) :
    containsStr n (a ++ m) := by
  obtain ⟨pre, post, e⟩ := h
  exact ⟨a.data ++ pre, post, by simp [str_data_append, e, List.append_assoc]⟩

theorem containsStr_appendR (b : String) {n m : String} (h : containsStr n m) :
    containsStr n (m ++ b) := by
  obtain ⟨pre, post, e⟩ := h
  exact ⟨pre, post ++ b.data, by simp [str_data_append, e, List.append_assoc]⟩

theorem strJoin_foldl_data (L : List String) (acc : String) :
    (L.foldl (· ++ ·) acc).data = acc.data ++ (L.map String.data).join := by
  induction L generalizing acc with
  | nil => simp
  | cons s L ih =>
    simp only [List.foldl_cons, List.map_cons, List.join]
    rw [ih, str_data_append]
    simp [List.append_assoc]

theorem strJoin_data (L : List String) :
    (String.join L).data = (L.map String.data).join := by
  show (L.foldl (· ++ ·) "").data = _
  rw [strJoin_foldl_data]
  rfl

/-- An occurrence inside one member string survives the join. -/
theorem containsStr_join {n s : String} {L : List String}
    (hmem : s ∈ L) (h : containsStr n s) : containsStr n (String.join L) := by
  obtain ⟨l1, l2, rfl⟩ := List.append_of_mem hmem
  obtain ⟨pre, post, e⟩ := h
  refine ⟨(l1.map String.data).join ++ pre, post ++ (l2.map String.data).join, ?_⟩
  rw [strJoin_data]
  simp only [List.map_append, List.map_cons, List.join_append, List.join]
  rw [e]
  simp [List.append_assoc]

/-- Occurrences inside the value rendered by any per-field chunk reach
the full item fragment. -/
theorem containsStr_renderItem_titleXml {item : CustomItem} {n : String}
    (h : containsStr n (titleXml item)) : containsStr n (renderItem item) := by
  unfold renderItem
  exact containsStr_appendR _ (containsStr_appendR _ (containsStr_appendR _
    (containsStr_appendR _ (containsStr_appendR _ (containsStr_appendR _
      (containsStr_appendR _ (containsStr_appendR _ (containsStr_appendL _ h))))))))

theorem containsStr_renderItem_linkXml {item : CustomItem} {n : String}
    (h : containsStr n (linkXml item)) : containsStr n (renderItem item) := by
  unfold renderItem
  exact containsStr_appendR _ (containsStr_appendR _ (containsStr_appendR _
    (containsStr_appendR _ (containsStr_appendR _ (containsStr_appendR _
      (containsStr_appendR _ (containsStr_appendL _ h)))))))

theorem containsStr_renderItem_guidXml {item : CustomItem} {n : String}
    (h : containsStr n (guidXml item)) : containsStr n (renderItem item) := by
  unfold renderItem
  exact containsStr_appendR _ (containsStr_appendR _ (containsStr_appendR _
    (containsStr_appendR _ (containsStr_appendR _ (containsStr_appendR _
      (containsStr_appendL _ h))))))

theorem containsStr_renderItem_contentXml {item : CustomItem} {n : String}
    (h : containsStr n (contentXml item)) : containsStr n (renderItem item) := by
  unfold renderItem
  exact containsStr_appendR _ (containsStr_appendR _ (containsStr_appendR _
    (containsStr_appendL _ h)))

/-- An occurrence inside the fragment of any rendered item reaches the
full RSS document. -/
theorem containsStr_generateRSS_of_item {clock : Clock} {mergedFeed : CustomFeed}
    {requestUrl : Option String} {item : CustomItem} {n : String}
    (hmem : item ∈ mergedFeed.items) (h : containsStr n (renderItem item)) :
    containsStr n (generateRSS clock mergedFeed requestUrl) := by
  unfold generateRSS
  exact containsStr_appendR _ (containsStr_appendL _
    (containsStr_join (List.mem_map_of_mem renderItem hmem) h))

/-! ## Claim theorems: coercion helper and escaping contract -/

/-- C4: `safeString` maps `null`/`undefined` to `""`, primitives to their
string form, and a structured value to its `_` text field only (never a
stringification of the whole object); consequently an item whose `guid`
arrived as `\x7bisPermaLink: "false", _: "https://x/?p=1"\x7d` renders a
`<guid>` element containing exactly `https://x/?p=1`. -/
theorem safeString_coercion_and_guid (item : CustomItem) (s : String) (n : Int) (b : Bool)
    (fields : List (String × JSVal)) (t : String) :
    safeString .null = "" ∧ safeString .undef = ""
    ∧ safeString (.str s) = s
    ∧ safeString (.num n) = toString n
    ∧ safeString (.bool b) = toString b
    ∧ (fields.lookup "_" = some (.str t) → safeString (.obj fields) = t)
    ∧ (fields.lookup "_" = none → safeString (.obj fields) = "")
    ∧ (item.guid = .obj [("isPermaLink", .str "false"), ("_", .str "https://x/?p=1")] →
        containsStr "<guid>https://x/?p=1</guid>" (renderItem item)) := by
  refine ⟨rfl, rfl, rfl, rfl, rfl, ?_, ?_, ?_⟩
  · intro h; simp [safeString, h]
  · intro h; simp [safeString, h]
  · intro hg
    apply containsStr_renderItem_guidXml
    have hv : guidVal item = .obj [("isPermaLink", .str "false"), ("_", .str "https://x/?p=1")] := by
      simp [guidVal, hg, jsTruthy]
    have he : escapeXml (.obj [("isPermaLink", JSVal.str "false"), ("_", JSVal.str "https://x/?p=1")])
        = "https://x/?p=1" := by decide
    unfold guidXml
    rw [hv, he]
    rw [show "<guid>" ++ "https://x/?p=1" ++ "</guid>" = "<guid>https://x/?p=1</guid>" from rfl]
    exact containsStr_wrap _ _ _

/-- C5: values outside CDATA are passed through the five-entity escaper
(whose output never contains a raw `<`, `>`, `"`, `'`); values inside
CDATA are passed through unescaped; the control-character strip
(`encodeContent`, keeping only printable ASCII plus newline, carriage
return and tab) is applied only on the `<description>`/snippet path,
never on the `<content:encoded>` path, so non-ASCII text such as an
em-dash or smart quotes is removed in the former and preserved
byte-identically in the latter. -/
theorem escaping_contract (s t : String) (item : CustomItem) :
    (∀ c ∈ (escapeXmlS s).data, c ≠ '<' ∧ c ≠ '>' ∧ c ≠ '"' ∧ c ≠ '\'')
    ∧ (jsTruthyS item.content = true →
        containsStr ("<content:encoded>" ++ wrapCDATA (.str (item.content.getD ""))
          ++ "</content:encoded>") (renderItem item)
        ∧ wrapCDATA (.str (item.content.getD ""))
            = "<![CDATA[" ++ item.content.getD "" ++ "]]>")
    ∧ (jsTruthyS item.content = false → jsTruthyS item.contentSnippet = true →
        containsStr ("<description>"
          ++ escapeXmlS (encodeContent (item.contentSnippet.getD "")) ++ "</description>")
          (renderItem item))
    ∧ (∀ c ∈ (encodeContent t).data,
        (0x20 ≤ c.toNat ∧ c.toNat ≤ 0x7E) ∨ c = '\n' ∨ c = '\r' ∨ c = '\t')
    ∧ encodeContent "Hi—“x”" = "Hix" := by
  refine ⟨?_, ?_, ?_, ?_, by decide⟩
  · exact escapeXmlL_no_raw_specials s.data
  · intro h
    constructor
    · apply containsStr_renderItem_contentXml
      unfold contentXml
      rw [if_pos h]
      exact containsStr_wrap _ _ _
    · rfl
  · intro h1 h2
    apply containsStr_renderItem_contentXml
    unfold contentXml
    rw [if_neg (by simp [h1]), if_pos h2]
    exact containsStr_wrap _ _ _
  · intro c hc
    have hc2 : c ∈ t.data.filter
        (fun c => (0x20 ≤ c.toNat && c.toNat ≤ 0x7E) || c = '\n' || c = '\r' || c = '\t') := hc
    rw [List.mem_filter] at hc2
    have hb := hc2.2
    simp only [Bool.or_eq_true, Bool.and_eq_true, decide_eq_true_eq] at hb
    tauto

/-- Witness for C4: the coercion conclusions at concrete inputs. -/
theorem safeString_coercion_and_guid_witness :
    safeString (.obj [("_", JSVal.str "hello")]) = "hello"
    ∧ containsStr "<guid>https://x/?p=1</guid>"
        (renderItem { guid := .obj [("isPermaLink", JSVal.str "false"),
          ("_", JSVal.str "https://x/?p=1")] }) :=
  ⟨(safeString_coercion_and_guid {} "" 0 false [("_", JSVal.str "hello")] "hello").2.2.2.2.2.1 rfl,
   (safeString_coercion_and_guid { guid := .obj [("isPermaLink", JSVal.str "false"),
      ("_", JSVal.str "https://x/?p=1")] } "" 0 false [] "").2.2.2.2.2.2.2 rfl⟩

/-- Witness for C5: the same em-dash and smart-quote text is preserved on
the CDATA path and stripped on the description path. -/
theorem escaping_contract_witness :
    (containsStr ("<content:encoded>" ++ wrapCDATA (.str "Hi—“x”") ++ "</content:encoded>")
        (renderItem { content := some "Hi—“x”" })
      ∧ wrapCDATA (.str "Hi—“x”") = "<![CDATA[" ++ "Hi—“x”" ++ "]]>")
    ∧ containsStr ("<description>" ++ escapeXmlS (encodeContent "Hi—“x”") ++ "</description>")
        (renderItem { contentSnippet := some "Hi—“x”" }) :=
  ⟨(escaping_contract "" "" { content := some "Hi—“x”" }).2.1 (by decide),
   (escaping_contract "" "" { contentSnippet := some "Hi—“x”" }).2.2.1 (by decide) (by decide)⟩

/-! ## Claim C3: single-feed render round trip -/

theorem single_feed_merged_items (pd : String → Int) (clock : Clock)
    (F : CustomFeed) (u : String) (requestUrl : Option String)
    (hlen : F.items.length ≤ 100) (hne : F.items ≠ []) :
    (mergeFeeds pd clock [{ feed := some F, error := none, url := some u }] requestUrl).items
      = sortByDateDesc pd F.items := by
  have hcollect : collectItems [{ feed := some F, error := none, url := some u }] = F.items := by
    have hl : F.items.length > 0 := by
      cases hi : F.items with
      | nil => exact absurd hi hne
      | cons a l => simp
    simp [collectItems, jsTruthyS, hl]
  have herr : mkErrorItems clock [{ feed := some F, error := none, url := some u }] = [] := rfl
  rw [(mergeFeeds_count_and_order pd clock _ requestUrl).1, herr, hcollect]
  simp [List.take_of_length_le, length_sortByDateDesc, hlen]

/-- C3 (amended): for a single well-formed feed of at most 100 items,
`generateRSS` after `mergeFeeds` reproduces every item's title, link and
content: the escaped title and link occur in the output and decode back
to the original strings (the escaping is lossless), and the content
occurs byte-identically inside its CDATA wrapper. -/
theorem generateRSS_single_feed_roundtrip (pd : String → Int) (clock : Clock)
    (F : CustomFeed) (u : String) (requestUrl : Option String)
    (hlen : F.items.length ≤ 100) :
    ∀ it ∈ F.items,
      (jsTruthyS it.title = true →
        containsStr ("<title>" ++ escapeXmlS (it.title.getD "") ++ "</title>")
          (generateRSS clock
            (mergeFeeds pd clock [{ feed := some F, error := none, url := some u }] requestUrl)
            requestUrl)
        ∧ unescapeXmlS (escapeXmlS (it.title.getD "")) = it.title.getD "")
      ∧ (jsTruthyS it.link = true →
        containsStr ("<link>" ++ escapeXmlS (it.link.getD "") ++ "</link>")
          (generateRSS clock
            (mergeFeeds pd clock [{ feed := some F, error := none, url := some u }] requestUrl)
            requestUrl)
        ∧ unescapeXmlS (escapeXmlS (it.link.getD "")) = it.link.getD "")
      ∧ (jsTruthyS it.content = true →
        containsStr ("<content:encoded>" ++ wrapCDATA (.str (it.content.getD ""))
            ++ "</content:encoded>")
          (generateRSS clock
            (mergeFeeds pd clock [{ feed := some F, error := none, url := some u }] requestUrl)
            requestUrl)
        ∧ wrapCDATA (.str (it.content.getD ""))
            = "<![CDATA[" ++ it.content.getD "" ++ "]]>") := by
  intro it hit
  have hne : F.items ≠ [] := by
    intro h; rw [h] at hit; simp at hit
  have hmem : it ∈ (mergeFeeds pd clock
      [{ feed := some F, error := none, url := some u }] requestUrl).items := by
    rw [single_feed_merged_items pd clock F u requestUrl hlen hne]
    exact mem_sortByDateDesc.mpr hit
  refine ⟨?_, ?_, ?_⟩
  · intro h
    refine ⟨?_, unescapeXmlS_escapeXmlS _⟩
    apply containsStr_generateRSS_of_item hmem
    apply containsStr_renderItem_titleXml
    unfold titleXml
    rw [if_pos h]
    exact containsStr_wrap _ _ _
  · intro h
    refine ⟨?_, unescapeXmlS_escapeXmlS _⟩
    apply containsStr_generateRSS_of_item hmem
    apply containsStr_renderItem_linkXml
    unfold linkXml
    rw [if_pos h]
    exact containsStr_wrap _ _ _
  · intro h
    refine ⟨?_, rfl⟩
    apply containsStr_generateRSS_of_item hmem
    apply containsStr_renderItem_contentXml
    unfold contentXml
    rw [if_pos h]
    exact containsStr_wrap _ _ _

/-- Date-parse oracle for concrete instances (all dates absent anyway). -/
def pdZero : String → Int := fun _ => 0

/-- Concrete clock for the closed instances. -/
def clockZero : Clock := { utcString := "", isoString := "", millis := 0 }

/-- A feed of 101 items: 100 dateless empty items followed by one item
whose content is the marker `Z` (appearing nowhere else in the render). -/
def overflowFeed : CustomFeed :=
  { items := List.replicate 100 ({} : CustomItem) ++ [({ content := some "Z" } : CustomItem)] }

/-- The rendered output for the single-source merge of `overflowFeed`. -/
def overflowOut : String :=
  generateRSS clockZero
    (mergeFeeds pdZero clockZero
      [{ feed := some overflowFeed, error := none, url := some "u" }] none) none

set_option maxRecDepth 1000000 in
set_option maxHeartbeats 4000000 in
/-- C3 fails as stated: for this single well-formed 101-item feed, the
marker item's truthy content does not appear in the rendered output at
all (the merge truncates to 100 items), so the round trip is not
lossless for every item. -/
theorem generateRSS_single_feed_roundtrip_counterexample :
    ({ content := some "Z" } : CustomItem) ∈ overflowFeed.items
    ∧ jsTruthyS ({ content := some "Z" } : CustomItem).content = true
    ∧ ¬ containsStr ("<content:encoded>" ++ wrapCDATA (.str "Z") ++ "</content:encoded>")
        overflowOut := by
  refine ⟨by simp [overflowFeed], by decide, ?_⟩
  rintro ⟨pre, post, e⟩
  have hzn : 'Z' ∈ ("<content:encoded>" ++ wrapCDATA (.str "Z")
      ++ "</content:encoded>").data := by decide
  have hz : 'Z' ∈ overflowOut.data := by
    rw [e]
    exact List.mem_append_left post (List.mem_append_right pre hzn)
  have hnz : 'Z' ∉ overflowOut.data := by decide
  exact hnz hz

/-- A one-item feed exercising escaping, linking and CDATA content. -/
def roundtripItem : CustomItem :=
  { title := some "T&x", link := some "http://e/a", content := some "C—z" }

def roundtripFeed : CustomFeed := { items := [roundtripItem] }

/-- The rendered output for the single-source merge of `roundtripFeed`. -/
def witnessOut : String :=
  generateRSS clockZero
    (mergeFeeds pdZero clockZero
      [{ feed := some roundtripFeed, error := none, url := some "u" }] none) none

/-- Witness for the amended C3 at a concrete one-item feed. -/
theorem generateRSS_single_feed_roundtrip_witness :
    (containsStr ("<title>" ++ escapeXmlS "T&x" ++ "</title>") witnessOut
      ∧ unescapeXmlS (escapeXmlS "T&x") = "T&x")
    ∧ (containsStr ("<link>" ++ escapeXmlS "http://e/a" ++ "</link>") witnessOut
      ∧ unescapeXmlS (escapeXmlS "http://e/a") = "http://e/a")
    ∧ (containsStr ("<content:encoded>" ++ wrapCDATA (.str "C—z") ++ "</content:encoded>")
        witnessOut
      ∧ wrapCDATA (.str "C—z") = "<![CDATA[" ++ "C—z" ++ "]]>") := by
  have h := generateRSS_single_feed_roundtrip pdZero clockZero roundtripFeed "u" none
    (by decide) roundtripItem (List.mem_singleton_self _)
  exact ⟨h.1 (by decide), h.2.1 (by decide), h.2.2 (by decide)⟩

/-! ## Claim C7: discovery href resolution -/

theorem slashSlash_shape {l : List Char} (h : (['/', '/'] : List Char).isPrefixOf l = true) :
    ∃ t, l = '/' :: '/' :: t := by
  cases l with
  | nil => simp [List.isPrefixOf] at h
  | cons c1 r1 =>
    cases r1 with
    | nil => simp [List.isPrefixOf] at h
    | cons c2 t =>
      simp [List.isPrefixOf] at h
      exact ⟨t, by rw [← h.1, ← h.2]⟩

theorem slash_shape {l : List Char} (h : (['/'] : List Char).isPrefixOf l = true) :
    ∃ t, l = '/' :: t := by
  cases l with
  | nil => simp [List.isPrefixOf] at h
  | cons c1 t =>
    simp [List.isPrefixOf] at h
    exact ⟨t, by rw [← h]⟩

theorem http_isPrefixOf_slash (t : List Char) :
    ("http://".data.isPrefixOf ('/' :: t)) = false
    ∧ ("https://".data.isPrefixOf ('/' :: t)) = false := by
  constructor
  · show (['h', 't', 't', 'p', ':', '/', '/'] : List Char).isPrefixOf ('/' :: t) = false
    simp [List.isPrefixOf]
  · show (['h', 't', 't', 'p', 's', ':', '/', '/'] : List Char).isPrefixOf ('/' :: t) = false
    simp [List.isPrefixOf]

/-- C7: the discovered href is resolved against the page URL exactly by
the cascade of the source: absolute http(s) URLs pass through unchanged;
protocol-relative hrefs inherit the original protocol; root-relative
hrefs are attached to the origin; anything else is resolved against the
original pathname directory (`split("/")`, pop, rejoin).  In particular
`/blog/feed.xml` discovered on `https://example.com/blog/` resolves to
`https://example.com/blog/feed.xml`. -/
theorem discoverFeedFromHtml_resolution (url href : String) (bu : UrlParts) :
    ((jsStartsWith href "http://" || jsStartsWith href "https://") = true →
      resolveHref url href = some href)
    ∧ (parseUrl url = some bu → jsStartsWith href "//" = true →
      resolveHref url href = some (bu.protocol ++ href))
    ∧ (parseUrl url = some bu → jsStartsWith href "/" = true →
      jsStartsWith href "//" = false →
      resolveHref url href = some (bu.origin ++ href))
    ∧ (parseUrl url = some bu →
      jsStartsWith href "http://" = false → jsStartsWith href "https://" = false →
      jsStartsWith href "/" = false →
      resolveHref url href = some (bu.origin
        ++ String.mk (joinWithSlash ((splitChar '/' bu.pathname.data).dropLast))
        ++ "/" ++ href))
    ∧ discoverFeedFromHtml "https://example.com/blog/"
        [{ type? := some "application/rss+xml", href? := some "/blog/feed.xml" }]
      = some "https://example.com/blog/feed.xml" := by
  refine ⟨?_, ?_, ?_, ?_, by decide⟩
  · intro h
    unfold resolveHref
    rw [if_pos h]
  · intro hp h
    obtain ⟨t, ht⟩ := slashSlash_shape (show (['/', '/'] : List Char).isPrefixOf href.data = true from h)
    have hh1 : jsStartsWith href "http://" = false := by
      unfold jsStartsWith; rw [ht]; exact (http_isPrefixOf_slash _).1
    have hh2 : jsStartsWith href "https://" = false := by
      unfold jsStartsWith; rw [ht]; exact (http_isPrefixOf_slash _).2
    simp [resolveHref, hh1, hh2, hp, h]
  · intro hp h1 h2
    obtain ⟨t, ht⟩ := slash_shape (show (['/'] : List Char).isPrefixOf href.data = true from h1)
    have hh1 : jsStartsWith href "http://" = false := by
      unfold jsStartsWith; rw [ht]; exact (http_isPrefixOf_slash _).1
    have hh2 : jsStartsWith href "https://" = false := by
      unfold jsStartsWith; rw [ht]; exact (http_isPrefixOf_slash _).2
    simp [resolveHref, hh1, hh2, hp, h1, h2]
  · intro hp hh1 hh2 h1
    have h2 : jsStartsWith href "//" = false := by
      cases hq : jsStartsWith href "//" with
      | false => rfl
      | true =>
        obtain ⟨t, ht⟩ := slashSlash_shape
          (show (['/', '/'] : List Char).isPrefixOf href.data = true from hq)
        have : jsStartsWith href "/" = true := by
          unfold jsStartsWith; rw [ht]
          show (['/'] : List Char).isPrefixOf ('/' :: '/' :: t) = true
          simp [List.isPrefixOf]
        rw [this] at h1
        exact absurd h1 (by simp)
    simp [resolveHref, hh1, hh2, hp, h1, h2]

/-- Witness for C7: each cascade branch and the concrete scenario at
concrete inputs. -/
theorem discoverFeedFromHtml_resolution_witness :
    resolveHref "https://example.com/blog/" "http://a/b" = some "http://a/b"
    ∧ resolveHref "https://example.com/blog/" "//cdn.example.org/f.xml"
      = some ("https:" ++ "//cdn.example.org/f.xml")
    ∧ resolveHref "https://example.com/blog/" "/blog/feed.xml"
      = some ("https://example.com" ++ "/blog/feed.xml")
    ∧ resolveHref "https://example.com/blog/" "sub/feed.xml"
      = some ("https://example.com"
        ++ String.mk (joinWithSlash ((splitChar '/' ("/blog/" : String).data).dropLast))
        ++ "/" ++ "sub/feed.xml") := by
  have hbu : parseUrl "https://example.com/blog/"
      = some { protocol := "https:", origin := "https://example.com", pathname := "/blog/" } := by
    decide
  refine ⟨?_, ?_, ?_, ?_⟩
  · exact (discoverFeedFromHtml_resolution "https://example.com/blog/" "http://a/b"
      { protocol := "https:", origin := "https://example.com", pathname := "/blog/" }).1
      (by decide)
  · exact (discoverFeedFromHtml_resolution "https://example.com/blog/" "//cdn.example.org/f.xml"
      { protocol := "https:", origin := "https://example.com", pathname := "/blog/" }).2.1
      hbu (by decide)
  · exact (discoverFeedFromHtml_resolution "https://example.com/blog/" "/blog/feed.xml"
      { protocol := "https:", origin := "https://example.com", pathname := "/blog/" }).2.2.1
      hbu (by decide) (by decide)
  · exact (discoverFeedFromHtml_resolution "https://example.com/blog/" "sub/feed.xml"
      { protocol := "https:", origin := "https://example.com", pathname := "/blog/" }).2.2.2.1
      hbu (by decide) (by decide) (by decide)

/-! ## Claim C9: the JSON Feed output parses back -/

theorem skipWs_not_ws {c : Char} (l : List Char) (h : isWsChar c = false) :
    skipWs (c :: l) = c :: l := by
  simp [skipWs, h]

theorem skipWs_ws {c : Char} (l : List Char) (h : isWsChar c = true) :
    skipWs (c :: l) = skipWs l := by
  simp [skipWs, h]

theorem skipWs_append_ws {pre : List Char} (h : ∀ c ∈ pre, isWsChar c = true)
    (l : List Char) : skipWs (pre ++ l) = skipWs l := by
  induction pre with
  | nil => rfl
  | cons c p ih =>
    rw [List.cons_append, skipWs_ws _ (h c (by simp))]
    exact ih (fun c hc => h c (by simp [hc]))

theorem skipWs_jindent (d : Nat) (l : List Char) :
    skipWs (jindent d ++ l) = skipWs l := by
  apply skipWs_append_ws
  intro c hc
  have : c = ' ' := List.eq_of_mem_replicate hc
  simp [this, isWsChar]

theorem skipWs_idem (l : List Char) : skipWs (skipWs l) = skipWs l := by
  induction l with
  | nil => rfl
  | cons c r ih =>
    by_cases h : isWsChar c = true
    · rw [skipWs_ws _ h, ih]
    · rw [skipWs_not_ws _ (by simpa using h), skipWs_not_ws _ (by simpa using h)]

theorem parseJsonVal_succ (f : Nat) (l : List Char) :
    parseJsonVal (f + 1) l =
      match skipWs l with
      | 'n' :: 'u' :: 'l' :: 'l' :: rest => some (.null, rest)
      | '"' :: rest =>
        (parseStrBody (f + 1) rest).map (fun p => (.str (String.mk p.1), p.2))
      | '[' :: rest =>
        (match skipWs rest with
         | ']' :: rest2 => some (.arr [], rest2)
         | rest2 => (parseJsonElems f rest2).map (fun p => (.arr p.1, p.2)))
      | '\x7b' :: rest =>
        (match skipWs rest with
         | '\x7d' :: rest2 => some (.obj [], rest2)
         | rest2 => (parseJsonMembers f rest2).map (fun p => (.obj p.1, p.2)))
      | _ => none := rfl

theorem parseJsonElems_succ (f : Nat) (l : List Char) :
    parseJsonElems (f + 1) l =
      match parseJsonVal f l with
      | none => none
      | some (v, rest) =>
        match skipWs rest with
        | ',' :: rest2 => (parseJsonElems f rest2).map (fun p => (v :: p.1, p.2))
        | ']' :: rest2 => some ([v], rest2)
        | _ => none := rfl

theorem parseJsonMembers_succ (f : Nat) (l : List Char) :
    parseJsonMembers (f + 1) l =
      match skipWs l with
      | '"' :: rest =>
        (match parseStrBody (f + 1) rest with
         | none => none
         | some (key, rest1) =>
           match skipWs rest1 with
           | ':' :: rest2 =>
             (match parseJsonVal f rest2 with
              | none => none
              | some (v, rest3) =>
                match skipWs rest3 with
                | ',' :: rest4 =>
                  (parseJsonMembers f rest4).map
                    (fun p => ((String.mk key, v) :: p.1, p.2))
                | '\x7d' :: rest4 => some ([(String.mk key, v)], rest4)
                | _ => none)
           | _ => none)
      | _ => none := rfl

theorem parseJsonVal_congr (fuel : Nat) {l l' : List Char} (h : skipWs l = skipWs l') :
    parseJsonVal fuel l = parseJsonVal fuel l' := by
  cases fuel with
  | zero => rfl
  | succ f => rw [parseJsonVal_succ, parseJsonVal_succ, h]

theorem parseJsonElems_congr (fuel : Nat) {l l' : List Char} (h : skipWs l = skipWs l') :
    parseJsonElems fuel l = parseJsonElems fuel l' := by
  cases fuel with
  | zero => rfl
  | succ f => rw [parseJsonElems_succ, parseJsonElems_succ, parseJsonVal_congr f h]

theorem parseJsonMembers_congr (fuel : Nat) {l l' : List Char} (h : skipWs l = skipWs l') :
    parseJsonMembers fuel l = parseJsonMembers fuel l' := by
  cases fuel with
  | zero => rfl
  | succ f => rw [parseJsonMembers_succ, parseJsonMembers_succ, h]

/-- Every rendered JSON value starts with a non-whitespace character that
is not a closing bracket, closing brace or comma. -/
theorem renderJson_head (d : Nat) (j : Json) :
    ∃ c t, renderJson d j = c :: t ∧ isWsChar c = false
      ∧ c ≠ ']' ∧ c ≠ '\x7d' ∧ c ≠ ',' := by
  cases j with
  | null =>
    exact ⟨'n', ['u', 'l', 'l'], by simp [renderJson], by decide, by decide, by decide, by decide⟩
  | str s =>
    exact ⟨'"', s.data.flatMap jescChar ++ ['"'], by simp [renderJson, jstrL],
      by decide, by decide, by decide, by decide⟩
  | arr es =>
    cases es with
    | nil =>
      exact ⟨'[', [']'], by simp [renderJson], by decide, by decide, by decide, by decide⟩
    | cons e es =>
      exact ⟨'[', '\n' :: (renderElems d e es ++ '\n' :: jindent d ++ [']']),
        by simp [renderJson], by decide, by decide, by decide, by decide⟩
  | obj ms =>
    cases ms with
    | nil =>
      exact ⟨'\x7b', ['\x7d'], by simp [renderJson], by decide, by decide, by decide, by decide⟩
    | cons m ms =>
      exact ⟨'\x7b', '\n' :: (renderMembers d m ms ++ '\n' :: jindent d ++ ['\x7d']),
        by simp [renderJson], by decide, by decide, by decide, by decide⟩

theorem decodeHexDigit_hexDigit {n : Nat} (h : n < 16) :
    decodeHexDigit (hexDigit n) = some n := by
  interval_cases n <;> decide

theorem parseStrBody_cons (f : Nat) (c : Char) (tail : List Char) :
    parseStrBody (f + 1) (c :: tail) =
      if c = '"' then some ([], tail)
      else if c = '\\' then
        match tail with
        | '"' :: rest2 => (parseStrBody f rest2).map (fun p => ('"' :: p.1, p.2))
        | '\\' :: rest2 => (parseStrBody f rest2).map (fun p => ('\\' :: p.1, p.2))
        | '/' :: rest2 => (parseStrBody f rest2).map (fun p => ('/' :: p.1, p.2))
        | 'b' :: rest2 => (parseStrBody f rest2).map (fun p => ('\x08' :: p.1, p.2))
        | 'f' :: rest2 => (parseStrBody f rest2).map (fun p => ('\x0c' :: p.1, p.2))
        | 'n' :: rest2 => (parseStrBody f rest2).map (fun p => ('\n' :: p.1, p.2))
        | 'r' :: rest2 => (parseStrBody f rest2).map (fun p => ('\r' :: p.1, p.2))
        | 't' :: rest2 => (parseStrBody f rest2).map (fun p => ('\t' :: p.1, p.2))
        | 'u' :: h1 :: h2 :: h3 :: h4 :: rest2 =>
          match decodeHexDigit h1, decodeHexDigit h2, decodeHexDigit h3, decodeHexDigit h4 with
          | some a, some b, some c3, some c4 =>
            (parseStrBody f rest2).map
              (fun p => (Char.ofNat (4096 * a + 256 * b + 16 * c3 + c4) :: p.1, p.2))
          | _, _, _, _ => none
        | _ => none
      else (parseStrBody f tail).map (fun p => (c :: p.1, p.2)) := rfl

theorem parseStrBody_esc_quote (f : Nat) (tail : List Char) :
    parseStrBody (f + 1) ('\\' :: '"' :: tail)
      = (parseStrBody f tail).map (fun p => ('"' :: p.1, p.2)) := rfl

theorem parseStrBody_esc_backslash (f : Nat) (tail : List Char) :
    parseStrBody (f + 1) ('\\' :: '\\' :: tail)
      = (parseStrBody f tail).map (fun p => ('\\' :: p.1, p.2)) := rfl

theorem parseStrBody_esc_b (f : Nat) (tail : List Char) :
    parseStrBody (f + 1) ('\\' :: 'b' :: tail)
      = (parseStrBody f tail).map (fun p => ('\x08' :: p.1, p.2)) := rfl

theorem parseStrBody_esc_f (f : Nat) (tail : List Char) :
    parseStrBody (f + 1) ('\\' :: 'f' :: tail)
      = (parseStrBody f tail).map (fun p => ('\x0c' :: p.1, p.2)) := rfl

theorem parseStrBody_esc_n (f : Nat) (tail : List Char) :
    parseStrBody (f + 1) ('\\' :: 'n' :: tail)
      = (parseStrBody f tail).map (fun p => ('\n' :: p.1, p.2)) := rfl

theorem parseStrBody_esc_r (f : Nat) (tail : List Char) :
    parseStrBody (f + 1) ('\\' :: 'r' :: tail)
      = (parseStrBody f tail).map (fun p => ('\r' :: p.1, p.2)) := rfl

theorem parseStrBody_esc_t (f : Nat) (tail : List Char) :
    parseStrBody (f + 1) ('\\' :: 't' :: tail)
      = (parseStrBody f tail).map (fun p => ('\t' :: p.1, p.2)) := rfl

theorem parseStrBody_esc_u (f : Nat) (h1 h2 h3 h4 : Char) (tail : List Char) :
    parseStrBody (f + 1) ('\\' :: 'u' :: h1 :: h2 :: h3 :: h4 :: tail)
      = (match decodeHexDigit h1, decodeHexDigit h2, decodeHexDigit h3, decodeHexDigit h4 with
        | some a, some b, some c3, some c4 =>
          (parseStrBody f tail).map
            (fun p => (Char.ofNat (4096 * a + 256 * b + 16 * c3 + c4) :: p.1, p.2))
        | _, _, _, _ => none) := rfl

/-- The string-body reader inverts the `JSON.stringify` string escaping. -/
theorem parseStrBody_jesc (s : List Char) (rest : List Char) :
    ∀ fuel, (s.flatMap jescChar).length + 1 ≤ fuel →
    parseStrBody fuel (s.flatMap jescChar ++ '"' :: rest) = some (s, rest) := by
  induction s with
  | nil =>
    intro fuel h
    cases fuel with
    | zero => omega
    | succ f =>
      rw [List.flatMap_nil, List.nil_append, parseStrBody_cons, if_pos rfl]
  | cons c cs ih =>
    intro fuel h
    rw [List.flatMap_cons] at h ⊢
    rw [List.length_append] at h
    cases fuel with
    | zero => omega
    | succ f =>
      have hrec : (cs.flatMap jescChar).length + 1 ≤ f := by
        have hc : 1 ≤ (jescChar c).length := by
          unfold jescChar
          repeat' split
          all_goals simp
        omega
    -- case split on the escape class of c
      by_cases h1 : c = '"'
      · subst h1
        rw [show jescChar '"' = ['\\', '"'] from rfl]
        rw [show (['\\', '"'] ++ cs.flatMap jescChar) ++ '"' :: rest
            = '\\' :: '"' :: (cs.flatMap jescChar ++ '"' :: rest) by simp]
        rw [parseStrBody_esc_quote, ih f (by omega)]
        rfl
      · by_cases h2 : c = '\\'
        · subst h2
          rw [show jescChar '\\' = ['\\', '\\'] from rfl]
          rw [show (['\\', '\\'] ++ cs.flatMap jescChar) ++ '"' :: rest
              = '\\' :: '\\' :: (cs.flatMap jescChar ++ '"' :: rest) by simp]
          rw [parseStrBody_esc_backslash, ih f (by omega)]
          rfl
        · by_cases h3 : c = '\x08'
          · subst h3
            rw [show jescChar '\x08' = ['\\', 'b'] from rfl]
            rw [show (['\\', 'b'] ++ cs.flatMap jescChar) ++ '"' :: rest
                = '\\' :: 'b' :: (cs.flatMap jescChar ++ '"' :: rest) by simp]
            rw [parseStrBody_esc_b, ih f (by omega)]
            rfl
          · by_cases h4 : c = '\x0c'
            · subst h4
              rw [show jescChar '\x0c' = ['\\', 'f'] from rfl]
              rw [show (['\\', 'f'] ++ cs.flatMap jescChar) ++ '"' :: rest
                  = '\\' :: 'f' :: (cs.flatMap jescChar ++ '"' :: rest) by simp]
              rw [parseStrBody_esc_f, ih f (by omega)]
              rfl
            · by_cases h5 : c = '\n'
              · subst h5
                rw [show jescChar '\n' = ['\\', 'n'] from rfl]
                rw [show (['\\', 'n'] ++ cs.flatMap jescChar) ++ '"' :: rest
                    = '\\' :: 'n' :: (cs.flatMap jescChar ++ '"' :: rest) by simp]
                rw [parseStrBody_esc_n, ih f (by omega)]
                rfl
              · by_cases h6 : c = '\r'
                · subst h6
                  rw [show jescChar '\r' = ['\\', 'r'] from rfl]
                  rw [show (['\\', 'r'] ++ cs.flatMap jescChar) ++ '"' :: rest
                      = '\\' :: 'r' :: (cs.flatMap jescChar ++ '"' :: rest) by simp]
                  rw [parseStrBody_esc_r, ih f (by omega)]
                  rfl
                · by_cases h7 : c = '\t'
                  · subst h7
                    rw [show jescChar '\t' = ['\\', 't'] from rfl]
                    rw [show (['\\', 't'] ++ cs.flatMap jescChar) ++ '"' :: rest
                        = '\\' :: 't' :: (cs.flatMap jescChar ++ '"' :: rest) by simp]
                    rw [parseStrBody_esc_t, ih f (by omega)]
                    rfl
                  · by_cases h8 : c.toNat < 0x20
                    · rw [show jescChar c = ['\\', 'u', '0', '0',
                          hexDigit (c.toNat / 16), hexDigit (c.toNat % 16)] by
                        simp [jescChar, h1, h2, h3, h4, h5, h6, h7, h8]]
                      rw [show (['\\', 'u', '0', '0', hexDigit (c.toNat / 16),
                            hexDigit (c.toNat % 16)] ++ cs.flatMap jescChar) ++ '"' :: rest
                          = '\\' :: 'u' :: '0' :: '0' :: hexDigit (c.toNat / 16)
                            :: hexDigit (c.toNat % 16)
                            :: (cs.flatMap jescChar ++ '"' :: rest) by simp]
                      rw [parseStrBody_esc_u,
                        show decodeHexDigit '0' = some 0 from rfl,
                        decodeHexDigit_hexDigit (by omega : c.toNat / 16 < 16),
                        decodeHexDigit_hexDigit (by omega : c.toNat % 16 < 16)]
                      show Option.map
                          (fun p => (Char.ofNat (4096 * 0 + 256 * 0
                            + 16 * (c.toNat / 16) + c.toNat % 16) :: p.1, p.2))
                          (parseStrBody f (cs.flatMap jescChar ++ '"' :: rest))
                        = some (c :: cs, rest)
                      rw [ih f (by omega)]
                      have harith : 4096 * 0 + 256 * 0 + 16 * (c.toNat / 16) + c.toNat % 16
                          = c.toNat := by omega
                      simp [harith, Char.ofNat_toNat]
                      rw [show 16 * (c.toNat / 16) + c.toNat % 16 = c.toNat from by omega,
                        Char.ofNat_toNat]
                    · rw [show jescChar c = [c] by
                        simp [jescChar, h1, h2, h3, h4, h5, h6, h7, h8]]
                      rw [show ([c] ++ cs.flatMap jescChar) ++ '"' :: rest
                          = c :: (cs.flatMap jescChar ++ '"' :: rest) by simp]
                      rw [parseStrBody_cons, if_neg h1, if_neg h2]
                      rw [ih f (by omega)]
                      rfl

mutual

/-- Fuel bound sufficient for the reader on a rendered value. -/
def jsize : Json → Nat
  | .null => 1
  | .str s => (s.data.flatMap jescChar).length + 2
  | .arr es => 2 + esizeL es
  | .obj ms => 2 + msizeL ms
termination_by j => sizeOf j
decreasing_by all_goals (simp_wf <;> omega)

/-- Fuel bound for the element loop. -/
def esizeL : List Json → Nat
  | [] => 0
  | e :: es => 1 + jsize e + esizeL es
termination_by es => sizeOf es
decreasing_by all_goals (simp_wf <;> omega)

/-- Fuel bound for the member loop. -/
def msizeL : List (String × Json) → Nat
  | [] => 0
  | (k, v) :: ms => 2 + (k.data.flatMap jescChar).length + jsize v + msizeL ms
termination_by ms => sizeOf ms
decreasing_by all_goals (simp_wf <;> omega)

end

theorem jsize_pos (j : Json) : 1 ≤ jsize j := by
  cases j <;> simp [jsize] <;> omega

/-- Induction statement: the value reader inverts the renderer. -/
def PVal (fuel : Nat) : Prop :=
  ∀ (ws : List Char) (d : Nat) (j : Json) (rest : List Char),
    (∀ c ∈ ws, isWsChar c = true) → jsize j ≤ fuel →
    parseJsonVal fuel (ws ++ renderJson d j ++ rest) = some (j, rest)

/-- Induction statement: the element loop inverts the element renderer. -/
def PElems (fuel : Nat) : Prop :=
  ∀ (d : Nat) (e : Json) (es : List Json) (rest : List Char),
    esizeL (e :: es) ≤ fuel →
    parseJsonElems fuel (renderElems d e es ++ '\n' :: jindent d ++ ']' :: rest)
      = some (e :: es, rest)

/-- Induction statement: the member loop inverts the member renderer. -/
def PMembers (fuel : Nat) : Prop :=
  ∀ (d : Nat) (m : String × Json) (ms : List (String × Json)) (rest : List Char),
    msizeL (m :: ms) ≤ fuel →
    parseJsonMembers fuel (renderMembers d m ms ++ '\n' :: jindent d ++ '\x7d' :: rest)
      = some (m :: ms, rest)

theorem skipWs_newline (l : List Char) : skipWs ('\n' :: l) = skipWs l :=
  skipWs_ws _ (by decide)

theorem skipWs_nl_indent (d : Nat) (b : Char) (rest : List Char) (hb : isWsChar b = false) :
    skipWs ('\n' :: jindent d ++ b :: rest) = b :: rest := by
  rw [show ('\n' :: jindent d ++ b :: rest) = '\n' :: (jindent d ++ b :: rest) from rfl]
  rw [skipWs_newline, skipWs_jindent, skipWs_not_ws _ hb]

theorem pval_null (f : Nat) (ws : List Char) (d : Nat) (rest : List Char)
    (hws : ∀ c ∈ ws, isWsChar c = true) :
    parseJsonVal (f + 1) (ws ++ renderJson d .null ++ rest) = some (.null, rest) := by
  rw [show renderJson d .null = ['n', 'u', 'l', 'l'] by simp [renderJson]]
  rw [parseJsonVal_succ, List.append_assoc, skipWs_append_ws hws]
  rw [show (['n', 'u', 'l', 'l'] ++ rest : List Char) = 'n' :: 'u' :: 'l' :: 'l' :: rest from rfl]
  rw [skipWs_not_ws _ (by decide)]
  rfl

theorem pval_str (f : Nat) (ws : List Char) (d : Nat) (s : String) (rest : List Char)
    (hws : ∀ c ∈ ws, isWsChar c = true) (hsz : jsize (.str s) ≤ f + 1) :
    parseJsonVal (f + 1) (ws ++ renderJson d (.str s) ++ rest) = some (.str s, rest) := by
  rw [show renderJson d (.str s) = jstrL s by simp [renderJson]]
  rw [parseJsonVal_succ, List.append_assoc, skipWs_append_ws hws]
  rw [show jstrL s ++ rest = '"' :: (s.data.flatMap jescChar ++ '"' :: rest) by
    simp [jstrL]]
  rw [skipWs_not_ws _ (by decide)]
  show (parseStrBody (f + 1) (s.data.flatMap jescChar ++ '"' :: rest)).map
      (fun p => (Json.str (String.mk p.1), p.2)) = some (.str s, rest)
  rw [parseStrBody_jesc s.data rest (f + 1) (by simp only [jsize] at hsz; omega)]
  rfl

theorem pval_arr_nil (f : Nat) (ws : List Char) (d : Nat) (rest : List Char)
    (hws : ∀ c ∈ ws, isWsChar c = true) :
    parseJsonVal (f + 1) (ws ++ renderJson d (.arr []) ++ rest) = some (.arr [], rest) := by
  rw [show renderJson d (.arr []) = ['[', ']'] by simp [renderJson]]
  rw [parseJsonVal_succ, List.append_assoc, skipWs_append_ws hws]
  rw [show ((['[', ']'] : List Char) ++ rest) = '[' :: (']' :: rest) from rfl]
  rw [skipWs_not_ws _ (by decide)]
  show (match skipWs (']' :: rest) with
        | ']' :: rest2 => some (Json.arr [], rest2)
        | rest2 => (parseJsonElems f rest2).map (fun p => (Json.arr p.1, p.2)))
      = some (.arr [], rest)
  rw [skipWs_not_ws _ (by decide)]
  rfl

theorem pval_obj_nil (f : Nat) (ws : List Char) (d : Nat) (rest : List Char)
    (hws : ∀ c ∈ ws, isWsChar c = true) :
    parseJsonVal (f + 1) (ws ++ renderJson d (.obj []) ++ rest) = some (.obj [], rest) := by
  rw [show renderJson d (.obj []) = ['\x7b', '\x7d'] by simp [renderJson]]
  rw [parseJsonVal_succ, List.append_assoc, skipWs_append_ws hws]
  rw [show ((['\x7b', '\x7d'] : List Char) ++ rest) = '\x7b' :: ('\x7d' :: rest) from rfl]
  rw [skipWs_not_ws _ (by decide)]
  show (match skipWs ('\x7d' :: rest) with
        | '\x7d' :: rest2 => some (Json.obj [], rest2)
        | rest2 => (parseJsonMembers f rest2).map (fun p => (Json.obj p.1, p.2)))
      = some (.obj [], rest)
  rw [skipWs_not_ws _ (by decide)]
  rfl

theorem pval_arr_branch (f : Nat) (l : List Char) (c : Char) (t : List Char)
    (v : List Json) (rest : List Char)
    (hl : skipWs l = c :: t) (hc : c ≠ ']')
    (hparse : parseJsonElems f (c :: t) = some (v, rest)) :
    (match skipWs l with
     | ']' :: rest2 => some (Json.arr [], rest2)
     | rest2 => (parseJsonElems f rest2).map (fun p => (Json.arr p.1, p.2)))
    = some (Json.arr v, rest) := by
  rw [hl]
  split
  · rename_i heq
    injection heq with h1 _
    exact absurd h1 hc
  · rw [hparse]
    rfl

theorem pval_obj_branch (f : Nat) (l : List Char) (c : Char) (t : List Char)
    (v : List (String × Json)) (rest : List Char)
    (hl : skipWs l = c :: t) (hc : c ≠ '\x7d')
    (hparse : parseJsonMembers f (c :: t) = some (v, rest)) :
    (match skipWs l with
     | '\x7d' :: rest2 => some (Json.obj [], rest2)
     | rest2 => (parseJsonMembers f rest2).map (fun p => (Json.obj p.1, p.2)))
    = some (Json.obj v, rest) := by
  rw [hl]
  split
  · rename_i heq
    injection heq with h1 _
    exact absurd h1 hc
  · rw [hparse]
    rfl

/-- The element block, with anything appended, starts (after whitespace)
with the first character of its first rendered element. -/
theorem skipWs_renderElems_head (d : Nat) (e : Json) (es : List Json) (tail : List Char) :
    ∃ c t, skipWs (renderElems d e es ++ tail) = c :: t ∧ isWsChar c = false
      ∧ c ≠ ']' ∧ c ≠ '\x7d' := by
  obtain ⟨c, t0, hct, hcw, h1, h2, h3⟩ := renderJson_head (d + 1) e
  cases es with
  | nil =>
    refine ⟨c, t0 ++ tail, ?_, hcw, h1, h2⟩
    rw [show renderElems d e [] = jindent (d + 1) ++ renderJson (d + 1) e by simp [renderElems]]
    rw [List.append_assoc, skipWs_jindent, hct]
    rw [show (c :: t0) ++ tail = c :: (t0 ++ tail) from rfl]
    exact skipWs_not_ws _ hcw
  | cons e2 es =>
    refine ⟨c, t0 ++ (',' :: '\n' :: renderElems d e2 es ++ tail), ?_, hcw, h1, h2⟩
    rw [show renderElems d e (e2 :: es)
        = jindent (d + 1) ++ renderJson (d + 1) e ++ ',' :: '\n' :: renderElems d e2 es by
      simp [renderElems]]
    rw [show (jindent (d + 1) ++ renderJson (d + 1) e ++ ',' :: '\n' :: renderElems d e2 es) ++ tail
        = jindent (d + 1) ++ (renderJson (d + 1) e
          ++ (',' :: '\n' :: renderElems d e2 es ++ tail)) by simp]
    rw [skipWs_jindent, hct]
    rw [show (c :: t0) ++ (',' :: '\n' :: renderElems d e2 es ++ tail)
        = c :: (t0 ++ (',' :: '\n' :: renderElems d e2 es ++ tail)) from rfl]
    exact skipWs_not_ws _ hcw

/-- The member block, with anything appended, starts (after whitespace)
with the opening quote of its first key. -/
theorem skipWs_renderMembers_head (d : Nat) (m : String × Json)
    (ms : List (String × Json)) (tail : List Char) :
    skipWs (renderMembers d m ms ++ tail)
      = '"' :: (m.1.data.flatMap jescChar
        ++ '"' :: (':' :: ' ' :: renderJson (d + 1) m.2
          ++ (match ms with
              | [] => tail
              | m2 :: ms2 => ',' :: '\n' :: renderMembers d m2 ms2 ++ tail))) := by
  obtain ⟨k, v⟩ := m
  cases ms with
  | nil =>
    rw [show renderMembers d (k, v) []
        = jindent (d + 1) ++ jstrL k ++ ':' :: ' ' :: renderJson (d + 1) v by
      simp [renderMembers]]
    rw [show (jindent (d + 1) ++ jstrL k ++ ':' :: ' ' :: renderJson (d + 1) v) ++ tail
        = jindent (d + 1) ++ ('"' :: (k.data.flatMap jescChar
          ++ '"' :: (':' :: ' ' :: (renderJson (d + 1) v ++ tail)))) by simp [jstrL]]
    rw [skipWs_jindent, skipWs_not_ws _ (by decide)]
    simp
  | cons m2 ms2 =>
    rw [show renderMembers d (k, v) (m2 :: ms2)
        = jindent (d + 1) ++ jstrL k ++ ':' :: ' ' :: renderJson (d + 1) v
          ++ ',' :: '\n' :: renderMembers d m2 ms2 by
      simp [renderMembers]]
    rw [show (jindent (d + 1) ++ jstrL k ++ ':' :: ' ' :: renderJson (d + 1) v
          ++ ',' :: '\n' :: renderMembers d m2 ms2) ++ tail
        = jindent (d + 1) ++ ('"' :: (k.data.flatMap jescChar
          ++ '"' :: (':' :: ' ' :: (renderJson (d + 1) v
            ++ (',' :: '\n' :: renderMembers d m2 ms2 ++ tail))))) by simp [jstrL]]
    rw [skipWs_jindent, skipWs_not_ws _ (by decide)]
    simp

theorem jindent_ws (d : Nat) : ∀ c ∈ jindent d, isWsChar c = true := by
  intro c hc
  rw [List.eq_of_mem_replicate hc]
  decide

theorem pelems_step (f : Nat) (d : Nat) (e : Json) (es : List Json) (rest : List Char)
    (hsz : esizeL (e :: es) ≤ f + 1) (IHv : PVal f) (IHe : PElems f) :
    parseJsonElems (f + 1) (renderElems d e es ++ '\n' :: jindent d ++ ']' :: rest)
      = some (e :: es, rest) := by
  have hje : jsize e ≤ f := by
    simp only [esizeL] at hsz
    have := jsize_pos e
    omega
  cases es with
  | nil =>
    have h1 : parseJsonVal f (renderElems d e [] ++ '\n' :: jindent d ++ ']' :: rest)
        = some (e, '\n' :: jindent d ++ ']' :: rest) := by
      rw [show renderElems d e [] ++ '\n' :: jindent d ++ ']' :: rest
          = jindent (d + 1) ++ renderJson (d + 1) e ++ ('\n' :: jindent d ++ ']' :: rest) by
        simp [renderElems]]
      exact IHv (jindent (d + 1)) (d + 1) e _ (jindent_ws (d + 1)) hje
    have h4 : skipWs ('\n' :: jindent d ++ ']' :: rest) = ']' :: rest :=
      skipWs_nl_indent d _ rest (by decide)
    simp only [parseJsonElems_succ, h1, h4]
  | cons e2 es2 =>
    have h1 : parseJsonVal f (renderElems d e (e2 :: es2) ++ '\n' :: jindent d ++ ']' :: rest)
        = some (e, ',' :: ('\n' :: (renderElems d e2 es2 ++ ('\n' :: jindent d ++ ']' :: rest)))) := by
      rw [show renderElems d e (e2 :: es2) ++ '\n' :: jindent d ++ ']' :: rest
          = jindent (d + 1) ++ renderJson (d + 1) e
            ++ (',' :: ('\n' :: (renderElems d e2 es2 ++ ('\n' :: jindent d ++ ']' :: rest)))) by
        simp [renderElems]]
      exact IHv (jindent (d + 1)) (d + 1) e _ (jindent_ws (d + 1)) hje
    have h2 : skipWs (',' :: ('\n' :: (renderElems d e2 es2 ++ ('\n' :: jindent d ++ ']' :: rest))))
        = ',' :: ('\n' :: (renderElems d e2 es2 ++ ('\n' :: jindent d ++ ']' :: rest))) :=
      skipWs_not_ws _ (by decide)
    have h3 : parseJsonElems f ('\n' :: (renderElems d e2 es2 ++ ('\n' :: jindent d ++ ']' :: rest)))
        = some (e2 :: es2, rest) := by
      rw [parseJsonElems_congr f
        (show skipWs ('\n' :: (renderElems d e2 es2 ++ ('\n' :: jindent d ++ ']' :: rest)))
            = skipWs (renderElems d e2 es2 ++ '\n' :: jindent d ++ ']' :: rest) by
          rw [skipWs_newline]
          congr 1
          simp)]
      refine IHe d e2 es2 rest ?_
      simp only [esizeL] at hsz ⊢
      omega
    simp only [parseJsonElems_succ, h1, h2, h3]
    rfl

theorem pmembers_step (f : Nat) (d : Nat) (k : String) (v : Json)
    (ms : List (String × Json)) (rest : List Char)
    (hsz : msizeL ((k, v) :: ms) ≤ f + 1) (IHv : PVal f) (IHm : PMembers f) :
    parseJsonMembers (f + 1)
        (renderMembers d (k, v) ms ++ '\n' :: jindent d ++ '\x7d' :: rest)
      = some ((k, v) :: ms, rest) := by
  have hkey : (k.data.flatMap jescChar).length + 1 ≤ f + 1 := by
    simp only [msizeL] at hsz
    have := jsize_pos v
    omega
  have hjv : jsize v ≤ f := by
    simp only [msizeL] at hsz
    omega
  cases ms with
  | nil =>
    have h0 : skipWs (renderMembers d (k, v) [] ++ '\n' :: jindent d ++ '\x7d' :: rest)
        = '"' :: (k.data.flatMap jescChar
          ++ '"' :: (':' :: (' ' :: renderJson (d + 1) v
            ++ ('\n' :: jindent d ++ '\x7d' :: rest)))) := by
      rw [show renderMembers d (k, v) [] ++ '\n' :: jindent d ++ '\x7d' :: rest
          = jindent (d + 1) ++ ('"' :: (k.data.flatMap jescChar
            ++ '"' :: (':' :: (' ' :: renderJson (d + 1) v
              ++ ('\n' :: jindent d ++ '\x7d' :: rest))))) by
        simp [renderMembers, jstrL]]
      rw [skipWs_jindent]
      exact skipWs_not_ws _ (by decide)
    have h1 : parseStrBody (f + 1) (k.data.flatMap jescChar
          ++ '"' :: (':' :: (' ' :: renderJson (d + 1) v
            ++ ('\n' :: jindent d ++ '\x7d' :: rest))))
        = some (k.data, ':' :: (' ' :: renderJson (d + 1) v
            ++ ('\n' :: jindent d ++ '\x7d' :: rest))) :=
      parseStrBody_jesc k.data _ (f + 1) hkey
    have h2 : skipWs (':' :: (' ' :: renderJson (d + 1) v
          ++ ('\n' :: jindent d ++ '\x7d' :: rest)))
        = ':' :: (' ' :: renderJson (d + 1) v ++ ('\n' :: jindent d ++ '\x7d' :: rest)) :=
      skipWs_not_ws _ (by decide)
    have h3 : parseJsonVal f (' ' :: renderJson (d + 1) v
          ++ ('\n' :: jindent d ++ '\x7d' :: rest))
        = some (v, '\n' :: jindent d ++ '\x7d' :: rest) :=
      IHv [' '] (d + 1) v ('\n' :: jindent d ++ '\x7d' :: rest) (by decide) hjv
    have h4 : skipWs ('\n' :: jindent d ++ '\x7d' :: rest) = '\x7d' :: rest :=
      skipWs_nl_indent d _ rest (by decide)
    simp only [parseJsonMembers_succ, h0, h1, h2, h3, h4]
  | cons m2 ms2 =>
    have h0 : skipWs (renderMembers d (k, v) (m2 :: ms2) ++ '\n' :: jindent d ++ '\x7d' :: rest)
        = '"' :: (k.data.flatMap jescChar
          ++ '"' :: (':' :: (' ' :: renderJson (d + 1) v
            ++ (',' :: ('\n' :: (renderMembers d m2 ms2
              ++ ('\n' :: jindent d ++ '\x7d' :: rest))))))) := by
      rw [show renderMembers d (k, v) (m2 :: ms2) ++ '\n' :: jindent d ++ '\x7d' :: rest
          = jindent (d + 1) ++ ('"' :: (k.data.flatMap jescChar
            ++ '"' :: (':' :: (' ' :: renderJson (d + 1) v
              ++ (',' :: ('\n' :: (renderMembers d m2 ms2
                ++ ('\n' :: jindent d ++ '\x7d' :: rest)))))))) by
        simp [renderMembers, jstrL]]
      rw [skipWs_jindent]
      exact skipWs_not_ws _ (by decide)
    have h1 : parseStrBody (f + 1) (k.data.flatMap jescChar
          ++ '"' :: (':' :: (' ' :: renderJson (d + 1) v
            ++ (',' :: ('\n' :: (renderMembers d m2 ms2
              ++ ('\n' :: jindent d ++ '\x7d' :: rest)))))))
        = some (k.data, ':' :: (' ' :: renderJson (d + 1) v
            ++ (',' :: ('\n' :: (renderMembers d m2 ms2
              ++ ('\n' :: jindent d ++ '\x7d' :: rest)))))) :=
      parseStrBody_jesc k.data _ (f + 1) hkey
    have h2 : skipWs (':' :: (' ' :: renderJson (d + 1) v
          ++ (',' :: ('\n' :: (renderMembers d m2 ms2
            ++ ('\n' :: jindent d ++ '\x7d' :: rest))))))
        = ':' :: (' ' :: renderJson (d + 1) v
          ++ (',' :: ('\n' :: (renderMembers d m2 ms2
            ++ ('\n' :: jindent d ++ '\x7d' :: rest))))) :=
      skipWs_not_ws _ (by decide)
    have h3 : parseJsonVal f (' ' :: renderJson (d + 1) v
          ++ (',' :: ('\n' :: (renderMembers d m2 ms2
            ++ ('\n' :: jindent d ++ '\x7d' :: rest)))))
        = some (v, ',' :: ('\n' :: (renderMembers d m2 ms2
            ++ ('\n' :: jindent d ++ '\x7d' :: rest)))) :=
      IHv [' '] (d + 1) v _ (by decide) hjv
    have h4 : skipWs (',' :: ('\n' :: (renderMembers d m2 ms2
          ++ ('\n' :: jindent d ++ '\x7d' :: rest))))
        = ',' :: ('\n' :: (renderMembers d m2 ms2
          ++ ('\n' :: jindent d ++ '\x7d' :: rest))) :=
      skipWs_not_ws _ (by decide)
    have h5 : parseJsonMembers f ('\n' :: (renderMembers d m2 ms2
          ++ ('\n' :: jindent d ++ '\x7d' :: rest)))
        = some (m2 :: ms2, rest) := by
      rw [parseJsonMembers_congr f
        (show skipWs ('\n' :: (renderMembers d m2 ms2
              ++ ('\n' :: jindent d ++ '\x7d' :: rest)))
            = skipWs (renderMembers d m2 ms2 ++ '\n' :: jindent d ++ '\x7d' :: rest) by
          rw [skipWs_newline]
          congr 1
          simp)]
      refine IHm d m2 ms2 rest ?_
      simp only [msizeL] at hsz ⊢
      obtain ⟨k2, v2⟩ := m2
      simp only [msizeL] at hsz ⊢
      omega
    simp only [parseJsonMembers_succ, h0, h1, h2, h3, h4, h5]
    rfl

theorem pval_arr_cons (f : Nat) (ws : List Char) (d : Nat) (e : Json) (es : List Json)
    (rest : List Char)
    (hws : ∀ c ∈ ws, isWsChar c = true) (hsz : jsize (.arr (e :: es)) ≤ f + 1)
    (IHe : PElems f) :
    parseJsonVal (f + 1) (ws ++ renderJson d (.arr (e :: es)) ++ rest)
      = some (.arr (e :: es), rest) := by
  rw [show renderJson d (.arr (e :: es))
      = '[' :: '\n' :: (renderElems d e es ++ '\n' :: jindent d ++ [']']) by simp [renderJson]]
  rw [parseJsonVal_succ, List.append_assoc, skipWs_append_ws hws]
  rw [show ('[' :: '\n' :: (renderElems d e es ++ '\n' :: jindent d ++ [']'])) ++ rest
      = '[' :: ('\n' :: (renderElems d e es ++ '\n' :: jindent d ++ ']' :: rest)) by simp]
  rw [skipWs_not_ws _ (by decide)]
  obtain ⟨c, t, hE, hcw, h1, h2⟩ :=
    skipWs_renderElems_head d e es ('\n' :: jindent d ++ ']' :: rest)
  have hX : skipWs (renderElems d e es ++ '\n' :: jindent d ++ ']' :: rest) = c :: t := by
    rw [show renderElems d e es ++ '\n' :: jindent d ++ ']' :: rest
        = renderElems d e es ++ ('\n' :: jindent d ++ ']' :: rest) by simp]
    exact hE
  have hl : skipWs ('\n' :: (renderElems d e es ++ '\n' :: jindent d ++ ']' :: rest)) = c :: t := by
    rw [skipWs_newline]
    exact hX
  have hparse : parseJsonElems f (c :: t) = some (e :: es, rest) := by
    rw [parseJsonElems_congr f
      (show skipWs (c :: t)
          = skipWs (renderElems d e es ++ '\n' :: jindent d ++ ']' :: rest) by
        rw [← hX, skipWs_idem])]
    refine IHe d e es rest ?_
    simp only [jsize] at hsz
    omega
  exact pval_arr_branch f ('\n' :: (renderElems d e es ++ '\n' :: jindent d ++ ']' :: rest))
    c t (e :: es) rest hl h1 hparse

theorem pval_obj_cons (f : Nat) (ws : List Char) (d : Nat) (m : String × Json)
    (ms : List (String × Json)) (rest : List Char)
    (hws : ∀ c ∈ ws, isWsChar c = true) (hsz : jsize (.obj (m :: ms)) ≤ f + 1)
    (IHm : PMembers f) :
    parseJsonVal (f + 1) (ws ++ renderJson d (.obj (m :: ms)) ++ rest)
      = some (.obj (m :: ms), rest) := by
  rw [show renderJson d (.obj (m :: ms))
      = '\x7b' :: '\n' :: (renderMembers d m ms ++ '\n' :: jindent d ++ ['\x7d']) by
    simp [renderJson]]
  rw [parseJsonVal_succ, List.append_assoc, skipWs_append_ws hws]
  rw [show ('\x7b' :: '\n' :: (renderMembers d m ms ++ '\n' :: jindent d ++ ['\x7d'])) ++ rest
      = '\x7b' :: ('\n' :: (renderMembers d m ms ++ '\n' :: jindent d ++ '\x7d' :: rest)) by
    simp]
  rw [skipWs_not_ws _ (by decide)]
  have hmsz : msizeL (m :: ms) ≤ f := by
    simp only [jsize] at hsz
    omega
  cases ms with
  | nil =>
    have hX : skipWs (renderMembers d m [] ++ '\n' :: jindent d ++ '\x7d' :: rest)
        = '"' :: (m.1.data.flatMap jescChar
          ++ '"' :: (':' :: ' ' :: renderJson (d + 1) m.2
            ++ ('\n' :: jindent d ++ '\x7d' :: rest))) := by
      rw [show renderMembers d m [] ++ '\n' :: jindent d ++ '\x7d' :: rest
          = renderMembers d m [] ++ ('\n' :: jindent d ++ '\x7d' :: rest) by simp]
      exact skipWs_renderMembers_head d m [] ('\n' :: jindent d ++ '\x7d' :: rest)
    have hl : skipWs ('\n' :: (renderMembers d m [] ++ '\n' :: jindent d ++ '\x7d' :: rest))
        = '"' :: (m.1.data.flatMap jescChar
          ++ '"' :: (':' :: ' ' :: renderJson (d + 1) m.2
            ++ ('\n' :: jindent d ++ '\x7d' :: rest))) := by
      rw [skipWs_newline]
      exact hX
    have hparse : parseJsonMembers f ('"' :: (m.1.data.flatMap jescChar
          ++ '"' :: (':' :: ' ' :: renderJson (d + 1) m.2
            ++ ('\n' :: jindent d ++ '\x7d' :: rest))))
        = some ([m], rest) := by
      rw [parseJsonMembers_congr f
        (show skipWs ('"' :: (m.1.data.flatMap jescChar
              ++ '"' :: (':' :: ' ' :: renderJson (d + 1) m.2
                ++ ('\n' :: jindent d ++ '\x7d' :: rest))))
            = skipWs (renderMembers d m [] ++ '\n' :: jindent d ++ '\x7d' :: rest) by
          rw [← hX, skipWs_idem])]
      exact IHm d m [] rest hmsz
    exact pval_obj_branch f
      ('\n' :: (renderMembers d m [] ++ '\n' :: jindent d ++ '\x7d' :: rest))
      '"' _ [m] rest hl (by decide) hparse
  | cons m2 ms2 =>
    have hX : skipWs (renderMembers d m (m2 :: ms2) ++ '\n' :: jindent d ++ '\x7d' :: rest)
        = '"' :: (m.1.data.flatMap jescChar
          ++ '"' :: (':' :: ' ' :: renderJson (d + 1) m.2
            ++ (',' :: '\n' :: renderMembers d m2 ms2
              ++ ('\n' :: jindent d ++ '\x7d' :: rest)))) := by
      rw [show renderMembers d m (m2 :: ms2) ++ '\n' :: jindent d ++ '\x7d' :: rest
          = renderMembers d m (m2 :: ms2) ++ ('\n' :: jindent d ++ '\x7d' :: rest) by simp]
      exact skipWs_renderMembers_head d m (m2 :: ms2) ('\n' :: jindent d ++ '\x7d' :: rest)
    have hl : skipWs ('\n' :: (renderMembers d m (m2 :: ms2)
          ++ '\n' :: jindent d ++ '\x7d' :: rest))
        = '"' :: (m.1.data.flatMap jescChar
          ++ '"' :: (':' :: ' ' :: renderJson (d + 1) m.2
            ++ (',' :: '\n' :: renderMembers d m2 ms2
              ++ ('\n' :: jindent d ++ '\x7d' :: rest)))) := by
      rw [skipWs_newline]
      exact hX
    have hparse : parseJsonMembers f ('"' :: (m.1.data.flatMap jescChar
          ++ '"' :: (':' :: ' ' :: renderJson (d + 1) m.2
            ++ (',' :: '\n' :: renderMembers d m2 ms2
              ++ ('\n' :: jindent d ++ '\x7d' :: rest)))))
        = some (m :: m2 :: ms2, rest) := by
      rw [parseJsonMembers_congr f
        (show skipWs ('"' :: (m.1.data.flatMap jescChar
              ++ '"' :: (':' :: ' ' :: renderJson (d + 1) m.2
                ++ (',' :: '\n' :: renderMembers d m2 ms2
                  ++ ('\n' :: jindent d ++ '\x7d' :: rest)))))
            = skipWs (renderMembers d m (m2 :: ms2) ++ '\n' :: jindent d ++ '\x7d' :: rest) by
          rw [← hX, skipWs_idem])]
      exact IHm d m (m2 :: ms2) rest hmsz
    exact pval_obj_branch f
      ('\n' :: (renderMembers d m (m2 :: ms2) ++ '\n' :: jindent d ++ '\x7d' :: rest))
      '"' _ (m :: m2 :: ms2) rest hl (by decide) hparse

/-- The reader inverts the renderer at every sufficient fuel. -/
theorem parse_render_all : ∀ fuel, PVal fuel ∧ PElems fuel ∧ PMembers fuel := by
  intro fuel
  induction fuel with
  | zero =>
    refine ⟨?_, ?_, ?_⟩
    · intro ws d j rest hws hsz
      have := jsize_pos j
      omega
    · intro d e es rest hsz
      simp only [esizeL] at hsz
      have := jsize_pos e
      omega
    · intro d m ms rest hsz
      obtain ⟨k, v⟩ := m
      simp only [msizeL] at hsz
      omega
  | succ f ih =>
    obtain ⟨ihv, ihe, ihm⟩ := ih
    refine ⟨?_, ?_, ?_⟩
    · intro ws d j rest hws hsz
      cases j with
      | null => exact pval_null f ws d rest hws
      | str s => exact pval_str f ws d s rest hws hsz
      | arr es =>
        cases es with
        | nil => exact pval_arr_nil f ws d rest hws
        | cons e es => exact pval_arr_cons f ws d e es rest hws hsz ihe
      | obj ms =>
        cases ms with
        | nil => exact pval_obj_nil f ws d rest hws
        | cons m ms => exact pval_obj_cons f ws d m ms rest hws hsz ihm
    · intro d e es rest hsz
      exact pelems_step f d e es rest hsz ihv ihe
    · intro d m ms rest hsz
      obtain ⟨k, v⟩ := m
      exact pmembers_step f d k v ms rest hsz ihv ihm

mutual

/-- The fuel bound is covered by the length of the rendering. -/
theorem jsize_le_render (d : Nat) (j : Json) : jsize j ≤ (renderJson d j).length + 1 := by
  cases j with
  | null => simp [jsize, renderJson]
  | str s => simp [jsize, renderJson, jstrL]
  | arr es =>
    cases es with
    | nil => simp [jsize, esizeL, renderJson]
    | cons e es =>
      have h := esize_le_renderElems d e es
      simp only [jsize, esizeL]
      simp only [renderJson]
      simp [List.length_append, jindent]
      omega
  | obj ms =>
    cases ms with
    | nil => simp [jsize, msizeL, renderJson]
    | cons m ms =>
      have h := msize_le_renderMembers d m ms
      simp only [jsize]
      simp only [renderJson]
      simp [List.length_append, jindent]
      omega
termination_by sizeOf j
decreasing_by all_goals (simp_wf <;> omega)

theorem esize_le_renderElems (d : Nat) (e : Json) (es : List Json) :
    jsize e + esizeL es ≤ (renderElems d e es).length := by
  cases es with
  | nil =>
    have h := jsize_le_render (d + 1) e
    simp only [esizeL]
    simp only [renderElems]
    simp [List.length_append, jindent]
    omega
  | cons e2 es2 =>
    have h1 := jsize_le_render (d + 1) e
    have h2 := esize_le_renderElems d e2 es2
    simp only [esizeL] at h2 ⊢
    simp only [renderElems]
    simp [List.length_append, jindent]
    omega
termination_by sizeOf e + sizeOf es
decreasing_by all_goals (simp_wf <;> omega)

theorem msize_le_renderMembers (d : Nat) (m : String × Json) (ms : List (String × Json)) :
    msizeL (m :: ms) ≤ (renderMembers d m ms).length + 2 := by
  obtain ⟨k, v⟩ := m
  cases ms with
  | nil =>
    have h := jsize_le_render (d + 1) v
    simp only [msizeL]
    simp only [renderMembers]
    simp [List.length_append, jindent, jstrL]
    omega
  | cons m2 ms2 =>
    have h1 := jsize_le_render (d + 1) v
    have h2 := msize_le_renderMembers d m2 ms2
    simp only [msizeL] at h2 ⊢
    simp only [renderMembers]
    simp [List.length_append, jindent, jstrL]
    omega
termination_by sizeOf m + sizeOf ms
decreasing_by all_goals (simp_wf <;> omega)

end

/-- Reading back a rendered JSON value yields exactly that value. -/
theorem jsonParse_render (j : Json) : jsonParse (String.mk (renderJson 0 j)) = some j := by
  unfold jsonParse
  have hfuel : jsize j ≤ (renderJson 0 j).length + 1 := jsize_le_render 0 j
  have h := (parse_render_all ((renderJson 0 j).length + 1)).1 [] 0 j [] (by simp) hfuel
  have h2 : parseJsonVal ((renderJson 0 j).length + 1) (renderJson 0 j) = some (j, []) := by
    simpa using h
  rw [show (String.mk (renderJson 0 j)).data = renderJson 0 j from rfl, h2]
  simp [skipWs]

/-- C9: for every merged feed and request URL (and `crypto.randomUUID`
outcome), the string produced by `generateJSONFeed` parses back as valid
JSON — namely as exactly the object the serializer built — and its
`version` member is the constant `https://jsonfeed.org/version/1.1`,
which contains the substring `jsonfeed.org`. -/
theorem generateJSONFeed_valid (uuid : String) (mergedFeed : CustomFeed)
    (requestUrl : Option String) :
    jsonParse (generateJSONFeed uuid mergedFeed requestUrl)
      = some (jsonFeedObj uuid mergedFeed requestUrl)
    ∧ ∃ ms, jsonFeedObj uuid mergedFeed requestUrl = Json.obj ms
      ∧ ms.lookup "version" = some (Json.str "https://jsonfeed.org/version/1.1")
      ∧ hasSub "jsonfeed.org".data "https://jsonfeed.org/version/1.1".data = true := by
  refine ⟨jsonParse_render _, _, rfl, ?_, by decide⟩
  rfl
